import Mathlib

/-!
Shallow embedding of the LedgerBot conversational ledger core.

The definitions below are translated from the Go sources:
  * `internal/infrastructure/ai/openai_service.go` (tool-call executor and
    per-operation handlers),
  * `internal/usecase/bill_usecase.go` (bill use case),
  * the time-range resolver (`ParseTimeRange`, package repository),
  * the user-mapping repository (`SetUserName`), and
  * the Feishu webhook handler's group-chat addressing logic.

Modelling choices: Go `time.Time` values are wall-clock instants
`GoTime` (a proleptic-Gregorian calendar date plus a clock reading);
`float64` amounts are embedded as `Rat` (the claims only exercise
order/equality, never rounding); JSON argument maps are association
lists of `JsonVal`; the ledger repository and identity store (external
collaborators per the spec) are in-memory association lists, and every
ledger create/update/delete is also recorded in an operation trace.
-/

namespace LedgerBot

/-- A calendar date (proleptic Gregorian), as Go's `Year/Month/Day`. -/
structure Ymd where
  year : Int
  month : Nat
  day : Nat
deriving DecidableEq, Repr

/-- Gregorian leap-year rule, as Go's `isLeap` (zero tests of `%` agree
between Go's truncated and Lean's Euclidean remainder). -/
def isLeap (y : Int) : Bool :=
  (y % 4 == 0 && y % 100 != 0) || y % 400 == 0

/-- Number of days in a month, as Go's `daysIn`. -/
def daysInMonth (y : Int) (m : Nat) : Nat :=
  match m with
  | 1 => 31
  | 2 => if isLeap y then 29 else 28
  | 3 => 31
  | 4 => 30
  | 5 => 31
  | 6 => 30
  | 7 => 31
  | 8 => 31
  | 9 => 30
  | 10 => 31
  | 11 => 30
  | 12 => 31
  | _ => 0

/-- Days strictly before month `m` in a non-leap year. -/
def daysBeforeMonth (m : Nat) : Nat :=
  match m with
  | 1 => 0
  | 2 => 31
  | 3 => 59
  | 4 => 90
  | 5 => 120
  | 6 => 151
  | 7 => 181
  | 8 => 212
  | 9 => 243
  | 10 => 273
  | 11 => 304
  | 12 => 334
  | _ => 0

/-- A calendar date is valid when its month and day are in range. -/
def Ymd.Valid (d : Ymd) : Prop :=
  1 ≤ d.month ∧ d.month ≤ 12 ∧ 1 ≤ d.day ∧ d.day ≤ daysInMonth d.year d.month

instance (d : Ymd) : Decidable d.Valid := by
  unfold Ymd.Valid; infer_instance

/-- Linear day count of a date (days since the proleptic date 0001-01-00),
the quantity Go derives weekday and day arithmetic from. -/
def dayNumber (d : Ymd) : Int :=
  365 * (d.year - 1) + (d.year - 1) / 4 - (d.year - 1) / 100
    + (d.year - 1) / 400 + (daysBeforeMonth d.month : Int)
    + (if 2 < d.month then (if isLeap d.year then 1 else 0) else 0)
    + (d.day : Int) - 1

/-- The next calendar day. -/
def succDay (d : Ymd) : Ymd :=
  if d.day < daysInMonth d.year d.month then { d with day := d.day + 1 }
  else if d.month < 12 then ⟨d.year, d.month + 1, 1⟩
  else ⟨d.year + 1, 1, 1⟩

/-- The previous calendar day. -/
def predDay (d : Ymd) : Ymd :=
  if 1 < d.day then { d with day := d.day - 1 }
  else if 1 < d.month then ⟨d.year, d.month - 1, daysInMonth d.year (d.month - 1)⟩
  else ⟨d.year - 1, 12, 31⟩

/-- Iterated successor. -/
def addDaysNat (d : Ymd) : Nat → Ymd
  | 0 => d
  | n + 1 => succDay (addDaysNat d n)

/-- Iterated predecessor. -/
def subDaysNat (d : Ymd) : Nat → Ymd
  | 0 => d
  | n + 1 => predDay (subDaysNat d n)

/-- Shifting a date by a signed number of days; models the day component
of Go's date normalization in `time.Date` / `AddDate`. -/
def addDays (d : Ymd) (n : Int) : Ymd :=
  if 0 ≤ n then addDaysNat d n.toNat else subDaysNat d (-n).toNat

theorem daysInMonth_pos (y : Int) (m : Nat) (h1 : 1 ≤ m) (h12 : m ≤ 12) :
    1 ≤ daysInMonth y m := by
  interval_cases m <;> by_cases hl : isLeap y = true <;> simp [daysInMonth, hl]

theorem isLeap_iff (y : Int) :
    isLeap y = true ↔ ((y % 4 = 0 ∧ ¬ y % 100 = 0) ∨ y % 400 = 0) := by
  simp [isLeap, Bool.or_eq_true, Bool.and_eq_true, beq_iff_eq, bne_iff_ne]

theorem div_diff_step4 (y : Int) :
    y / 4 - (y - 1) / 4 = if y % 4 = 0 then 1 else 0 := by
  by_cases h : y % 4 = 0 <;> simp only [h, if_true, if_false] <;> omega

theorem div_diff_step100 (y : Int) :
    y / 100 - (y - 1) / 100 = if y % 100 = 0 then 1 else 0 := by
  by_cases h : y % 100 = 0 <;> simp only [h, if_true, if_false] <;> omega

theorem div_diff_step400 (y : Int) :
    y / 400 - (y - 1) / 400 = if y % 400 = 0 then 1 else 0 := by
  by_cases h : y % 400 = 0 <;> simp only [h, if_true, if_false] <;> omega

theorem emod_zero_of_dvd_emod_zero {a b y : Int} (hab : a ∣ b)
    (hb : y % b = 0) : y % a = 0 := by
  have h := Int.emod_emod_of_dvd y hab
  rw [hb] at h
  simpa using h.symm

theorem leap_count_step (y : Int) :
    y / 4 - (y - 1) / 4 - (y / 100 - (y - 1) / 100)
      + (y / 400 - (y - 1) / 400)
      = (if isLeap y then 1 else 0) := by
  rw [div_diff_step4 y, div_diff_step100 y, div_diff_step400 y]
  by_cases h4 : y % 4 = 0
  · by_cases h100 : y % 100 = 0
    · by_cases h400 : y % 400 = 0
      · have hL : isLeap y = true := (isLeap_iff y).mpr (Or.inr h400)
        simp [h4, h100, h400, hL]
      · have hNL : ¬ isLeap y = true := by
          rw [isLeap_iff]
          rintro (⟨ha, hb⟩ | hc)
          · exact hb h100
          · exact h400 hc
        rw [if_pos h4, if_pos h100, if_neg h400, if_neg hNL]
        norm_num
    · have h400 : ¬ y % 400 = 0 := fun hc =>
        h100 (emod_zero_of_dvd_emod_zero (by norm_num) hc)
      have hL : isLeap y = true := (isLeap_iff y).mpr (Or.inl ⟨h4, h100⟩)
      simp [h4, h100, h400, hL]
  · have h100 : ¬ y % 100 = 0 := fun hc =>
      h4 (emod_zero_of_dvd_emod_zero (by norm_num) hc)
    have h400 : ¬ y % 400 = 0 := fun hc =>
      h4 (emod_zero_of_dvd_emod_zero (by norm_num) hc)
    have hNL : ¬ isLeap y = true := by
      rw [isLeap_iff]
      rintro (⟨ha, hb⟩ | hc)
      · exact h4 ha
      · exact h400 hc
    rw [if_neg h4, if_neg h100, if_neg h400, if_neg hNL]
    norm_num

theorem dayNumber_succDay (d : Ymd) (h : d.Valid) :
    dayNumber (succDay d) = dayNumber d + 1 := by
  obtain ⟨y, m, dd⟩ := d
  obtain ⟨hm1, hm12, hd1, hd2⟩ := h
  simp only [Ymd.month] at hm1 hm12
  simp only [Ymd.day, Ymd.year] at hd1 hd2
  unfold succDay
  by_cases hlt : dd < daysInMonth y m
  · simp only [hlt, if_true]
    simp [dayNumber]
    omega
  · simp only [hlt, if_false]
    have hday : dd = daysInMonth y m := by omega
    by_cases hm : m < 12
    · simp only [hm, if_true]
      subst hday
      interval_cases m <;> by_cases hl : isLeap y = true <;>
        simp [dayNumber, daysBeforeMonth, daysInMonth, hl] <;> omega
    · simp only [hm, if_false]
      have h12 : m = 12 := by omega
      subst h12
      have h31 : dd = 31 := by simpa [daysInMonth] using hday
      subst h31
      have hstep := leap_count_step y
      by_cases hl : isLeap y = true <;>
        simp [dayNumber, daysBeforeMonth, hl] at hstep ⊢ <;> omega

theorem valid_succDay (d : Ymd) (h : d.Valid) : (succDay d).Valid := by
  obtain ⟨y, m, dd⟩ := d
  obtain ⟨hm1, hm12, hd1, hd2⟩ := h
  simp only [Ymd.month] at hm1 hm12
  simp only [Ymd.day, Ymd.year] at hd1 hd2
  unfold succDay
  by_cases hlt : dd < daysInMonth y m
  · simp only [hlt, if_true]
    refine ⟨?_, ?_, ?_, ?_⟩ <;> simp only [Ymd.month, Ymd.day, Ymd.year] <;> omega
  · simp only [hlt, if_false]
    by_cases hm : m < 12
    · simp only [hm, if_true]
      have hpos := daysInMonth_pos y (m + 1) (by omega) (by omega)
      refine ⟨?_, ?_, ?_, ?_⟩ <;> simp only [Ymd.month, Ymd.day, Ymd.year] <;> omega
    · simp only [hm, if_false]
      have hpos : 1 ≤ daysInMonth (y + 1) 1 := by simp [daysInMonth]
      refine ⟨?_, ?_, ?_, ?_⟩ <;> simp only [Ymd.month, Ymd.day, Ymd.year] <;> omega

theorem dayNumber_predDay (d : Ymd) (h : d.Valid) :
    dayNumber (predDay d) = dayNumber d - 1 := by
  obtain ⟨y, m, dd⟩ := d
  obtain ⟨hm1, hm12, hd1, hd2⟩ := h
  simp only [Ymd.month] at hm1 hm12
  simp only [Ymd.day, Ymd.year] at hd1 hd2
  unfold predDay
  by_cases hgt : 1 < dd
  · simp only [hgt, if_true]
    simp [dayNumber]
    omega
  · simp only [hgt, if_false]
    have hday : dd = 1 := by omega
    subst hday
    by_cases hm : 1 < m
    · simp only [hm, if_true]
      interval_cases m <;> by_cases hl : isLeap y = true <;>
        simp [dayNumber, daysBeforeMonth, daysInMonth, hl] <;> omega
    · simp only [hm, if_false]
      have h1 : m = 1 := by omega
      subst h1
      have hstep := leap_count_step (y - 1)
      by_cases hl : isLeap (y - 1) = true <;>
        simp [dayNumber, daysBeforeMonth, hl] at hstep ⊢ <;> omega

theorem valid_predDay (d : Ymd) (h : d.Valid) : (predDay d).Valid := by
  obtain ⟨y, m, dd⟩ := d
  obtain ⟨hm1, hm12, hd1, hd2⟩ := h
  simp only [Ymd.month] at hm1 hm12
  simp only [Ymd.day, Ymd.year] at hd1 hd2
  unfold predDay
  by_cases hgt : 1 < dd
  · simp only [hgt, if_true]
    refine ⟨?_, ?_, ?_, ?_⟩ <;> simp only [Ymd.month, Ymd.day, Ymd.year] <;> omega
  · simp only [hgt, if_false]
    by_cases hm : 1 < m
    · simp only [hm, if_true]
      have hpos := daysInMonth_pos y (m - 1) (by omega) (by omega)
      refine ⟨?_, ?_, ?_, ?_⟩ <;> simp only [Ymd.month, Ymd.day, Ymd.year] <;> omega
    · simp only [hm, if_false]
      have hpos : (31 : Nat) ≤ daysInMonth (y - 1) 12 := by simp [daysInMonth]
      refine ⟨?_, ?_, ?_, ?_⟩ <;> simp only [Ymd.month, Ymd.day, Ymd.year] <;> omega

theorem addDaysNat_spec (d : Ymd) (h : d.Valid) (n : Nat) :
    (addDaysNat d n).Valid ∧ dayNumber (addDaysNat d n) = dayNumber d + n := by
  induction n with
  | zero => exact ⟨h, by simp [addDaysNat]⟩
  | succ k ih =>
    refine ⟨valid_succDay _ ih.1, ?_⟩
    rw [addDaysNat, dayNumber_succDay _ ih.1, ih.2]
    push_cast
    ring

theorem subDaysNat_spec (d : Ymd) (h : d.Valid) (n : Nat) :
    (subDaysNat d n).Valid ∧ dayNumber (subDaysNat d n) = dayNumber d - n := by
  induction n with
  | zero => exact ⟨h, by simp [subDaysNat]⟩
  | succ k ih =>
    refine ⟨valid_predDay _ ih.1, ?_⟩
    rw [subDaysNat, dayNumber_predDay _ ih.1, ih.2]
    push_cast
    ring

theorem addDays_spec (d : Ymd) (h : d.Valid) (n : Int) :
    (addDays d n).Valid ∧ dayNumber (addDays d n) = dayNumber d + n := by
  unfold addDays
  by_cases hn : 0 ≤ n
  · simp only [hn, if_true]
    have := addDaysNat_spec d h n.toNat
    exact ⟨this.1, by rw [this.2]; omega⟩
  · simp only [hn, if_false]
    have := subDaysNat_spec d h (-n).toNat
    exact ⟨this.1, by rw [this.2]; omega⟩

/-- A wall-clock instant, modelling Go's `time.Time` (the claims never
depend on the location/zone, so instants are plain wall-clock readings). -/
structure GoTime where
  date : Ymd
  hour : Nat
  minute : Nat
  second : Nat
  nanosecond : Nat
deriving DecidableEq, Repr

/-- Month normalization used by Go's `time.Date` (`norm(year, month)`). -/
def normMonth (y m : Int) : Int × Nat :=
  (y + (m - 1) / 12, ((m - 1) % 12).toNat + 1)

/-- Go's `time.Date(y, m, d, hh, mm, ss, ns, loc)`: months are normalized
into the year and an out-of-range day rolls over by plain day arithmetic. -/
def goDate (y m d : Int) (hh mi ss ns : Nat) : GoTime :=
  let p := normMonth y m
  { date := addDays ⟨p.1, p.2, 1⟩ (d - 1)
    hour := hh, minute := mi, second := ss, nanosecond := ns }

/-- Go's `t.AddDate(years, months, days)`, which re-dates `t` through
`time.Date` with the same clock reading. -/
def addDate (t : GoTime) (years months days : Int) : GoTime :=
  goDate (t.date.year + years) ((t.date.month : Int) + months)
    ((t.date.day : Int) + days) t.hour t.minute t.second t.nanosecond

/-- Go's `t.Weekday()` as an integer (`0 = Sunday, ..., 6 = Saturday`),
derived from the linear day count. -/
def goWeekday (d : Ymd) : Int := (dayNumber d + 1) % 7

/-- Go's `t.Add(-time.Nanosecond)`: step one nanosecond back. -/
def subOneNanosecond (t : GoTime) : GoTime :=
  if 0 < t.nanosecond then { t with nanosecond := t.nanosecond - 1 }
  else if 0 < t.second then { t with second := t.second - 1, nanosecond := 999999999 }
  else if 0 < t.minute then
    { t with minute := t.minute - 1, second := 59, nanosecond := 999999999 }
  else if 0 < t.hour then
    { t with hour := t.hour - 1, minute := 59, second := 59, nanosecond := 999999999 }
  else
    { date := predDay t.date, hour := 23, minute := 59, second := 59,
      nanosecond := 999999999 }

theorem normMonth_of_range (y m : Int) (h1 : 1 ≤ m) (h12 : m ≤ 12) :
    normMonth y m = (y, m.toNat) := by
  unfold normMonth
  have hdiv : (m - 1) / 12 = 0 := by omega
  have hmod : (m - 1) % 12 = m - 1 := by omega
  rw [hdiv, hmod]
  simp only [Prod.mk.injEq]
  exact ⟨by omega, by omega⟩

theorem goDate_date_spec (y : Int) (m dd : Nat) (d : Int) (hh mi ss ns : Nat)
    (hm1 : 1 ≤ m) (hm12 : m ≤ 12) (hd1 : 1 ≤ dd)
    (hd2 : dd ≤ daysInMonth y m) :
    ((goDate y (m : Int) d hh mi ss ns).date).Valid ∧
      dayNumber ((goDate y (m : Int) d hh mi ss ns).date)
        = dayNumber ⟨y, m, dd⟩ + d - dd := by
  unfold goDate
  rw [normMonth_of_range y m (by omega) (by omega)]
  have hmt : ((m : Int)).toNat = m := by simp
  simp only [hmt]
  have hbase : (Ymd.mk y m 1).Valid := by
    refine ⟨?_, ?_, ?_, ?_⟩ <;> simp only [Ymd.month, Ymd.day, Ymd.year] <;> omega
  have hspec := addDays_spec _ hbase (d - 1)
  refine ⟨hspec.1, ?_⟩
  rw [hspec.2]
  have hlin : dayNumber ⟨y, m, 1⟩ = dayNumber ⟨y, m, dd⟩ - dd + 1 := by
    simp [dayNumber]
    omega
  rw [hlin]
  ring

theorem addDate_days_spec (t : GoTime) (h : t.date.Valid) (n : Int) :
    ((addDate t 0 0 n).date).Valid ∧
      dayNumber ((addDate t 0 0 n).date) = dayNumber t.date + n ∧
      (addDate t 0 0 n).hour = t.hour ∧
      (addDate t 0 0 n).minute = t.minute ∧
      (addDate t 0 0 n).second = t.second ∧
      (addDate t 0 0 n).nanosecond = t.nanosecond := by
  obtain ⟨⟨y, m, dd⟩, hh, mi, ss, ns⟩ := t
  obtain ⟨hm1, hm12, hd1, hd2⟩ := h
  simp only [Ymd.month] at hm1 hm12
  simp only [Ymd.day, Ymd.year] at hd1 hd2
  unfold addDate
  simp only [GoTime.date, GoTime.hour, GoTime.minute, GoTime.second,
    GoTime.nanosecond, Ymd.year, Ymd.month, Ymd.day, add_zero]
  have hspec := goDate_date_spec y m dd ((dd : Int) + n) hh mi ss ns
    hm1 hm12 hd1 hd2
  refine ⟨hspec.1, ?_, by simp [goDate], by simp [goDate], by simp [goDate],
    by simp [goDate]⟩
  rw [hspec.2]
  ring

/-- One decimal digit, or failure. -/
def digitVal (c : Char) : Option Nat :=
  if '0' ≤ c ∧ c ≤ '9' then some (c.toNat - 48) else none

/-- Two fixed decimal digits (Go's zero-padded numeric layout elements). -/
def take2 : List Char → Option (Nat × List Char)
  | c1 :: c2 :: rest =>
    match digitVal c1, digitVal c2 with
    | some a, some b => some (10 * a + b, rest)
    | _, _ => none
  | _ => none

/-- Four fixed decimal digits (Go's `2006` year layout element). -/
def take4 : List Char → Option (Nat × List Char)
  | c1 :: c2 :: c3 :: c4 :: rest =>
    match digitVal c1, digitVal c2, digitVal c3, digitVal c4 with
    | some a, some b, some c, some d => some (1000 * a + 100 * b + 10 * c + d, rest)
    | _, _, _, _ => none
  | _ => none

/-- A single expected literal character. -/
def expectChar (c : Char) : List Char → Option (List Char)
  | x :: rest => if x = c then some rest else none
  | [] => none

/-- The `YYYY-MM-DD` prefix of a layout. -/
def parseYmdChars (cs : List Char) : Option (Ymd × List Char) := do
  let (y, cs) ← take4 cs
  let cs ← expectChar '-' cs
  let (mo, cs) ← take2 cs
  let cs ← expectChar '-' cs
  let (dd, cs) ← take2 cs
  pure (⟨(y : Int), mo, dd⟩, cs)

/-- Go's `time.Parse("2006-01-02", s)`: the whole input must be consumed
and the date must be in range. -/
def goParseDate (s : String) : Option Ymd :=
  match parseYmdChars s.toList with
  | some (d, []) => if d.Valid then some d else none
  | _ => none

/-- Go's `time.Parse("2006-01-02 15:04:05", s)`. -/
def goParseDateTime (s : String) : Option GoTime := do
  let (d, cs) ← parseYmdChars s.toList
  let cs ← expectChar ' ' cs
  let (hh, cs) ← take2 cs
  let cs ← expectChar ':' cs
  let (mi, cs) ← take2 cs
  let cs ← expectChar ':' cs
  let (ss, cs) ← take2 cs
  match cs with
  | [] =>
    if d.Valid ∧ hh ≤ 23 ∧ mi ≤ 59 ∧ ss ≤ 59 then
      some ⟨d, hh, mi, ss, 0⟩
    else none
  | _ => none

/-- `ParseTimeRange` from the repository package: resolves a named
time-range preset (or the custom pair of literal bounds) to a start and
end instant. Translated branch by branch from the Go `switch`. -/
def ParseTimeRange (timeRangeType startTimeStr endTimeStr : String)
    (now : GoTime) : Except String (GoTime × GoTime) :=
  match timeRangeType with
  | "today" =>
    .ok (goDate now.date.year (now.date.month : Int) (now.date.day : Int) 0 0 0 0,
      goDate now.date.year (now.date.month : Int) (now.date.day : Int) 23 59 59 999999999)
  | "yesterday" =>
    let yd := addDate now 0 0 (-1)
    .ok (goDate yd.date.year (yd.date.month : Int) (yd.date.day : Int) 0 0 0 0,
      goDate yd.date.year (yd.date.month : Int) (yd.date.day : Int) 23 59 59 999999999)
  | "this_week" =>
    let weekday0 := goWeekday now.date
    let weekday := if weekday0 = 0 then 7 else weekday0
    let daysFromMonday := weekday - 1
    let monday := addDate now 0 0 (-daysFromMonday)
    let startTime :=
      goDate monday.date.year (monday.date.month : Int) (monday.date.day : Int) 0 0 0 0
    let sunday := addDate monday 0 0 6
    let endTime :=
      goDate sunday.date.year (sunday.date.month : Int) (sunday.date.day : Int)
        23 59 59 999999999
    .ok (startTime, endTime)
  | "last_week" =>
    let weekday0 := goWeekday now.date
    let weekday := if weekday0 = 0 then 7 else weekday0
    let daysFromMonday := weekday - 1
    let thisMonday := addDate now 0 0 (-daysFromMonday)
    let lastMonday := addDate thisMonday 0 0 (-7)
    let startTime :=
      goDate lastMonday.date.year (lastMonday.date.month : Int)
        (lastMonday.date.day : Int) 0 0 0 0
    let lastSunday := addDate lastMonday 0 0 6
    let endTime :=
      goDate lastSunday.date.year (lastSunday.date.month : Int)
        (lastSunday.date.day : Int) 23 59 59 999999999
    .ok (startTime, endTime)
  | "this_month" =>
    let startTime := goDate now.date.year (now.date.month : Int) 1 0 0 0 0
    let nextMonth := addDate now 0 1 0
    let endTime := subOneNanosecond
      (goDate nextMonth.date.year (nextMonth.date.month : Int) 1 0 0 0 0)
    .ok (startTime, endTime)
  | "last_month" =>
    let lastMonth := addDate now 0 (-1) 0
    let startTime :=
      goDate lastMonth.date.year (lastMonth.date.month : Int) 1 0 0 0 0
    let endTime := subOneNanosecond
      (goDate now.date.year (now.date.month : Int) 1 0 0 0 0)
    .ok (startTime, endTime)
  | "last_7_days" =>
    let startTime := addDate
      (goDate now.date.year (now.date.month : Int) (now.date.day : Int) 0 0 0 0)
      0 0 (-6)
    let endTime :=
      goDate now.date.year (now.date.month : Int) (now.date.day : Int) 23 59 59 999999999
    .ok (startTime, endTime)
  | "last_30_days" =>
    let startTime := addDate
      (goDate now.date.year (now.date.month : Int) (now.date.day : Int) 0 0 0 0)
      0 0 (-29)
    let endTime :=
      goDate now.date.year (now.date.month : Int) (now.date.day : Int) 23 59 59 999999999
    .ok (startTime, endTime)
  | "custom" =>
    if startTimeStr = "" ∨ endTimeStr = "" then
      .error "custom time range requires both start_time and end_time"
    else
      match goParseDateTime startTimeStr with
      | some startTime => parseCustomEnd startTime endTimeStr
      | none =>
        match goParseDate startTimeStr with
        | none => .error "invalid start_time format"
        | some d =>
          parseCustomEnd (goDate d.year (d.month : Int) (d.day : Int) 0 0 0 0)
            endTimeStr
  | other => .error ("unknown time range type: " ++ other)
where
  /-- The end-bound half of the `custom` branch: full format first, then
  date-only defaulting to `23:59:59` (with Go's `999999999` nanoseconds). -/
  parseCustomEnd (startTime : GoTime) (endTimeStr : String) :
      Except String (GoTime × GoTime) :=
    match goParseDateTime endTimeStr with
    | some endTime => .ok (startTime, endTime)
    | none =>
      match goParseDate endTimeStr with
      | none => .error "invalid end_time format"
      | some d =>
        .ok (startTime,
          goDate d.year (d.month : Int) (d.day : Int) 23 59 59 999999999)

/-- A decoded JSON value as it appears in Go's `map[string]interface{}`
after `json.Unmarshal` (numbers are always `float64` there, embedded as
`Rat`; `composite` stands for nested arrays/objects, which the argument
helpers treat like any other mistyped value). -/
inductive JsonVal where
  | str (s : String)
  | num (x : Rat)
  | bool (b : Bool)
  | null
  | composite
deriving DecidableEq, Repr

/-- A decoded tool-call argument map. -/
abbrev ArgMap := List (String × JsonVal)

/-- First-match association-list lookup. -/
def lookupKey {α : Type} : List (String × α) → String → Option α
  | [], _ => none
  | (k2, v) :: rest, k => if k2 = k then some v else lookupKey rest k

/-- `getString` from `openai_service.go`: type-asserts to string,
returning `""` on absence or any other type. -/
def getString (m : ArgMap) (key : String) : String :=
  match lookupKey m key with
  | some (JsonVal.str s) => s
  | _ => ""

/-- `getFloat64` from `openai_service.go`: the `float64` case is the only
one reachable after `json.Unmarshal`; every other shape yields `0`. -/
def getFloat64 (m : ArgMap) (key : String) : Rat :=
  match lookupKey m key with
  | some (JsonVal.num x) => x
  | _ => 0

/-- Go's `unicode.IsSpace` on the Latin-1 range (the claims only exercise
these characters). -/
def isGoSpace (c : Char) : Bool :=
  c = ' ' || c = '\t' || c = '\n' || c = '\r' || c = Char.ofNat 11 ||
    c = Char.ofNat 12 || c = Char.ofNat 0x85 || c = Char.ofNat 0xA0

/-- Go's `strings.TrimSpace`. -/
def trimSpace (s : String) : String :=
  String.mk (((s.toList.dropWhile isGoSpace).reverse.dropWhile isGoSpace).reverse)

/-- `domain.BillType`. -/
inductive BillType where
  | expense
  | income
deriving DecidableEq, Repr

/-- `domain.Bill` (amounts as `Rat`, dates as `GoTime`). -/
structure Bill where
  id : String
  description : String
  amount : Rat
  type : BillType
  category : String
  date : GoTime
  userName : String
  originalMsg : String
  recordID : String
deriving DecidableEq, Repr

/-- The persistent stores behind the two collaborators: the ledger
repository's records keyed by record id, and the identity store's
`openID -> display name` map. -/
structure St where
  bills : List (String × Bill)
  users : List (String × String)
deriving DecidableEq, Repr

/-- A ledger-mutating repository call, recorded for the side-effect
claims. -/
inductive RepoOp where
  | createBill (b : Bill)
  | updateBill (b : Bill)
  | deleteBill (id : String)
deriving DecidableEq, Repr

/-- Modelled from the spec: the Ledger Repository collaborator's
`create(record)`; storage itself is out of scope, so creation appends to
the in-memory store and always succeeds. -/
def repoCreateBill (st : St) (b : Bill) : St :=
  { st with bills := st.bills ++ [(b.id, b)] }

/-- Modelled from the spec: the Ledger Repository collaborator's
`get(id) -> record | error`. -/
def repoGetBill (st : St) (id : String) : Except String Bill :=
  match lookupKey st.bills id with
  | some b => .ok b
  | none => .error ("bill not found: " ++ id)

/-- Modelled from the spec: the Ledger Repository collaborator's
`update(record)`, replacing the stored record with the same id. -/
def repoUpdateBill (st : St) (b : Bill) : St :=
  { st with bills := st.bills.map (fun p => if p.1 = b.id then (p.1, b) else p) }

/-- Modelled from the spec: the Ledger Repository collaborator's
`delete(id) -> error | nil`. -/
def repoDeleteBill (st : St) (id : String) : Except String St :=
  match lookupKey st.bills id with
  | some _ => .ok { st with bills := st.bills.filter (fun p => !(p.1 == id)) }
  | none => .error ("bill not found: " ++ id)

/-- Map-style insert-or-replace, as Go's `m[k] = v`. -/
def setKey (l : List (String × String)) (k v : String) : List (String × String) :=
  if (lookupKey l k).isSome then l.map (fun p => if p.1 = k then (k, v) else p)
  else l ++ [(k, v)]

/-- `userMappingRepository.SetUserName`: rejects empty or whitespace-only
names, otherwise stores the mapping (the file save is out of scope and
modelled as succeeding). -/
def SetUserName (users : List (String × String)) (openID userName : String) :
    Except String (List (String × String)) :=
  if userName = "" ∨ trimSpace userName = "" then .error "user name cannot be empty"
  else .ok (setKey users openID userName)

/-- `BillUseCaseImpl.CreateBill`: defaults an absent/empty category to
`"其他"`, generates the bill id from the user name, the current Unix time
and a random draw, defaults the date to `time.Now()`, and stores the
record. -/
def usecaseCreateBill (st : St) (userName userID originalMsg description : String)
    (amount : Rat) (billType : BillType) (date : Option GoTime)
    (category : Option String) (nowT : GoTime) (nowUnix rnd : Int) :
    Bill × St × List RepoOp :=
  let category := match category with
    | none => "其他"
    | some c => if c = "" then "其他" else c
  let billID := userName ++ "_" ++ toString nowUnix ++ "_" ++ toString rnd
  let date := match date with
    | none => nowT
    | some d => d
  let bill : Bill :=
    { id := billID, description := description, amount := amount,
      type := billType, category := category, date := date,
      userName := userName, originalMsg := originalMsg, recordID := "" }
  (bill, repoCreateBill st bill, [RepoOp.createBill bill])

/-- The update-field record passed by `BillService.UpdateBill` as the Go
`updates` map (one optional entry per map key it may set). -/
structure BillUpdates where
  description : Option String := none
  amount : Option Rat := none
  billType : Option BillType := none
  category : Option String := none
  date : Option GoTime := none
  originalMessage : Option String := none
deriving DecidableEq, Repr

/-- `BillUseCaseImpl.UpdateBill`: fetches the record, applies the
`description`, `amount`, `category`, `date` and `type` entries of the
updates map, and stores the result. The Go function reads no
`original_message` key, so `originalMessage` is deliberately unread. -/
def usecaseUpdateBill (st : St) (id : String) (updates : BillUpdates) :
    Except String Bill × St × List RepoOp :=
  match repoGetBill st id with
  | .error e => (.error e, st, [])
  | .ok bill0 =>
    let bill1 := match updates.description with
      | some d => { bill0 with description := d }
      | none => bill0
    let bill2 := match updates.amount with
      | some a => { bill1 with amount := a }
      | none => bill1
    let bill3 := match updates.category with
      | some c => { bill2 with category := c }
      | none => bill2
    let bill4 := match updates.date with
      | some dt => { bill3 with date := dt }
      | none => bill3
    let bill5 := match updates.billType with
      | some t => { bill4 with type := t }
      | none => bill4
    (.ok bill5, repoUpdateBill st bill5, [RepoOp.updateBill bill5])

/-- `BillUseCaseImpl.DeleteBill`, delegating to the repository. -/
def usecaseDeleteBill (st : St) (id : String) :
    Except String Unit × St × List RepoOp :=
  match repoDeleteBill st id with
  | .error e => (.error e, st, [])
  | .ok st2 => (.ok (), st2, [RepoOp.deleteBill id])

/-- The per-turn data of the AI-side `BillService` wrapper. -/
structure BillServiceData where
  userID : String
  userName : String
  originalMsg : String
deriving DecidableEq, Repr

/-- `BillService.CreateBill`: falls back to the stored original message
when the tool call supplies none, passes a non-nil category pointer. -/
def svcCreateBill (svc : BillServiceData) (st : St) (description : String)
    (amount : Rat) (billType : BillType) (date : Option GoTime)
    (category : String) (originalMsg : String) (nowT : GoTime)
    (nowUnix rnd : Int) : Bill × St × List RepoOp :=
  let originalMsg := if originalMsg = "" then svc.originalMsg else originalMsg
  usecaseCreateBill st svc.userName svc.userID originalMsg description amount
    billType date (some category) nowT nowUnix rnd

/-- `BillService.UpdateBill`: builds the updates map from the supplied
fields and stamps the record id onto the returned bill. -/
def svcUpdateBill (st : St) (recordID : String) (description : Option String)
    (amount : Option Rat) (billType : Option BillType)
    (category : Option String) (originalMsg : Option String) :
    Except String Bill × St × List RepoOp :=
  let updates : BillUpdates :=
    { description := description, amount := amount, billType := billType,
      category := category, originalMessage := originalMsg }
  match usecaseUpdateBill st recordID updates with
  | (.error e, st2, ops) => (.error e, st2, ops)
  | (.ok b, st2, ops) => (.ok { b with recordID := recordID }, st2, ops)

/-- Two-digit zero padding. -/
def pad2 (n : Nat) : String :=
  if n < 10 then "0" ++ toString n else toString n

/-- Four-digit zero padding for years. -/
def pad4 (n : Int) : String :=
  let s := toString n
  if s.length < 4 then String.mk (List.replicate (4 - s.length) '0') ++ s else s

/-- Go's `t.Format("2006-01-02")`. -/
def fmtDate (t : GoTime) : String :=
  pad4 t.date.year ++ "-" ++ pad2 t.date.month ++ "-" ++ pad2 t.date.day

/-- Round to the nearest integer, ties to even (the rounding of Go's
`%.2f` verb after scaling). -/
def roundHalfEven (x : Rat) : Int :=
  let f := ⌊x⌋
  let frac := x - f
  if frac < 1 / 2 then f
  else if 1 / 2 < frac then f + 1
  else if f % 2 = 0 then f else f + 1

/-- Go's `fmt.Sprintf("%.2f", x)`. -/
def fmtF2 (x : Rat) : String :=
  let neg := x < 0
  let c := roundHalfEven ((if neg then -x else x) * 100)
  let ip := c / 100
  let fp := (c % 100).toNat
  (if neg then "-" else "") ++ toString ip ++ "." ++ pad2 fp

/-- The outcome of one per-operation handler: the reply text, the Go
error (if any), the updated stores, and the ledger operations performed. -/
structure HOut where
  reply : String
  err : Option String
  st : St
  ops : List RepoOp
deriving DecidableEq, Repr

/-- `handleRecordTransaction`: validates description and amount, maps the
type string, and creates the bill through the service (date always nil,
so the use case stamps the server's current time). -/
def handleRecordTransaction (args : ArgMap) (svc : BillServiceData)
    (nowT : GoTime) (nowUnix rnd : Int) (st : St) : HOut :=
  let description := getString args "description"
  let amount := getFloat64 args "amount"
  let transType := getString args "type"
  let category := getString args "category"
  let originalMsg := getString args "original_message"
  if description = "" ∨ amount ≤ 0 then
    { reply := "请提供有效的交易信息", err := some "invalid args", st := st, ops := [] }
  else
    let bt := if transType = "income" then BillType.income else BillType.expense
    let r := svcCreateBill svc st description amount bt none category originalMsg
      nowT nowUnix rnd
    let bill := r.1
    let sign := if bill.type = BillType.income then "+" else "-"
    let response := "✅ 记账成功！\n📋 " ++ bill.description ++ "\n💰 " ++ sign ++ "¥"
      ++ fmtF2 bill.amount ++ "\n🏷️ " ++ bill.category
    let response :=
      if ¬ bill.recordID = "" then response ++ "\n🆔 " ++ bill.recordID else response
    { reply := response, err := none, st := r.2.1, ops := r.2.2 }

/-- `handleRenameUser`: requires a non-empty name and delegates to the
rename service, i.e. `SetUserName` keyed by the sender's open id. -/
def handleRenameUser (args : ArgMap) (openID : String) (st : St) : HOut :=
  let name := getString args "name"
  if name = "" then
    { reply := "名字不能为空", err := some "empty name", st := st, ops := [] }
  else
    match SetUserName st.users openID name with
    | .error e => { reply := "设置失败", err := some e, st := st, ops := [] }
    | .ok users2 =>
      { reply := "✅ 设置成功！从现在起，我将称呼您为：" ++ name, err := none,
        st := { st with users := users2 }, ops := [] }

/-- `handleUpdateTransaction`: requires `record_id`, collects the
optional fields, composes the original message from the stored record and
the current utterance, and updates through the service. -/
def handleUpdateTransaction (args : ArgMap) (currentInput : String) (st : St) :
    HOut :=
  let recordID := getString args "record_id"
  if recordID = "" then
    { reply := "请提供记录ID", err := some "record_id is required", st := st, ops := [] }
  else
    let description :=
      if ¬ getString args "description" = "" then some (getString args "description")
      else none
    let amount :=
      if 0 < getFloat64 args "amount" then some (getFloat64 args "amount") else none
    let billType :=
      if ¬ getString args "type" = "" then
        some (if getString args "type" = "income" then BillType.income
          else BillType.expense)
      else none
    let category :=
      if ¬ getString args "category" = "" then some (getString args "category")
      else none
    let originalMsg : Option String :=
      match repoGetBill st recordID with
      | .error _ => if ¬ currentInput = "" then some currentInput else none
      | .ok originalBill =>
        let combined := originalBill.originalMsg
        let combined :=
          if ¬ combined = "" ∧ ¬ currentInput = "" then combined ++ " | " ++ currentInput
          else if ¬ currentInput = "" then currentInput
          else if combined = "" then getString args "original_message"
          else combined
        if ¬ combined = "" then some combined else none
    if description = none ∧ amount = none ∧ billType = none ∧ category = none ∧
        originalMsg = none then
      { reply := "请提供至少一个要更新的字段", err := some "no fields to update",
        st := st, ops := [] }
    else
      match svcUpdateBill st recordID description amount billType category originalMsg with
      | (.error e, st2, ops) => { reply := "更新失败", err := some e, st := st2, ops := ops }
      | (.ok bill, st2, ops) =>
        let sign := if bill.type = BillType.income then "+" else "-"
        let response := "✅ 更新成功！\n📋 " ++ bill.description ++ "\n💰 " ++ sign ++ "¥"
          ++ fmtF2 bill.amount ++ "\n🏷️ " ++ bill.category
        let response :=
          if ¬ bill.recordID = "" then response ++ "\n🆔 " ++ bill.recordID else response
        { reply := response, err := none, st := st2, ops := ops }

/-- `handleDeleteTransaction`: requires `record_id` and delegates to the
repository delete. -/
def handleDeleteTransaction (args : ArgMap) (st : St) : HOut :=
  let recordID := getString args "record_id"
  if recordID = "" then
    { reply := "请提供记录ID", err := some "record_id is required", st := st, ops := [] }
  else
    match usecaseDeleteBill st recordID with
    | (.error e, st2, ops) => { reply := "删除失败", err := some e, st := st2, ops := ops }
    | (.ok _, st2, ops) =>
      { reply := "✅ 删除成功！\n🆔 " ++ recordID, err := none, st := st2, ops := ops }

/-- Total order stamp on instants, for the query window filter. -/
def GoTime.toStamp (t : GoTime) : Int :=
  (((dayNumber t.date * 24 + t.hour) * 60 + t.minute) * 60 + t.second) * 1000000000
    + t.nanosecond

/-- Insertion into an amount-descending list. -/
def insertByAmountDesc (b : Bill) : List Bill → List Bill
  | [] => [b]
  | x :: xs => if x.amount < b.amount then b :: x :: xs else x :: insertByAmountDesc b xs

/-- Amount-descending insertion sort. -/
def sortByAmountDesc : List Bill → List Bill
  | [] => []
  | x :: xs => insertByAmountDesc x (sortByAmountDesc xs)

/-- Go's `int(f)` on a `float64`: truncation toward zero. -/
def ratTrunc (x : Rat) : Int := if 0 ≤ x then ⌊x⌋ else ⌈x⌉

/-- Modelled from the spec: `billUseCase.QueryTransactions` (its body is
not in the sources; per the spec it returns the aggregate income/expense
totals over the window plus the `top_n` records ordered by amount
descending). -/
def QueryTransactions (st : St) (userName : String) (startTime endTime : GoTime)
    (topN : Int) : List Bill × Rat × Rat :=
  let inWindow := (st.bills.map Prod.snd).filter fun b =>
    b.userName == userName && decide (startTime.toStamp ≤ b.date.toStamp) &&
      decide (b.date.toStamp ≤ endTime.toStamp)
  let totalIncome := inWindow.foldl
    (fun acc b => if b.type = BillType.income then acc + b.amount else acc) 0
  let totalExpense := inWindow.foldl
    (fun acc b => if b.type = BillType.expense then acc + b.amount else acc) 0
  ((sortByAmountDesc inWindow).take topN.toNat, totalIncome, totalExpense)

/-- The ranked record lines of the query reply. -/
def queryLines : Nat → List Bill → String
  | _, [] => ""
  | i, b :: rest =>
    let sign := if b.type = BillType.income then "+" else "-"
    let line := toString i ++ ". " ++ b.description ++ " " ++ sign ++ "¥"
      ++ fmtF2 b.amount ++ " [" ++ b.category ++ "]\n"
    let line := if ¬ b.recordID = "" then line ++ "   🆔 " ++ b.recordID ++ "\n" else line
    line ++ queryLines (i + 1) rest

/-- `handleQueryTransactions`: resolves the time range, reads `top_n`
(default 5), queries, and formats the aggregate reply. -/
def handleQueryTransactions (args : ArgMap) (svc : BillServiceData)
    (nowT : GoTime) (st : St) : HOut :=
  let timeRangeTypeStr := getString args "time_range_type"
  if timeRangeTypeStr = "" then
    { reply := "请提供时间范围类型", err := some "time_range_type is required",
      st := st, ops := [] }
  else if timeRangeTypeStr = "custom" ∧
      (getString args "start_time" = "" ∨ getString args "end_time" = "") then
    { reply := "自定义时间范围需要提供开始时间和结束时间",
      err := some "start_time and end_time are required for custom time range",
      st := st, ops := [] }
  else
    let parsed :=
      if timeRangeTypeStr = "custom" then
        ParseTimeRange timeRangeTypeStr (getString args "start_time")
          (getString args "end_time") nowT
      else ParseTimeRange timeRangeTypeStr "" "" nowT
    match parsed with
    | .error e => { reply := "时间范围解析失败", err := some e, st := st, ops := [] }
    | .ok (startTime, endTime) =>
      let topN : Int :=
        match lookupKey args "top_n" with
        | some (JsonVal.num x) => ratTrunc x
        | _ => 5
      let q := QueryTransactions st svc.userName startTime endTime topN
      let bills := q.1
      let totalIncome := q.2.1
      let totalExpense := q.2.2
      let netAmount := totalIncome - totalExpense
      let response := "📊 查询结果（" ++ fmtDate startTime ++ " 至 " ++ fmtDate endTime
        ++ "）\n\n" ++ "💰 总收入: ¥" ++ fmtF2 totalIncome ++ "\n"
        ++ "💸 总支出: ¥" ++ fmtF2 totalExpense ++ "\n"
        ++ "📈 净收支: ¥" ++ fmtF2 netAmount ++ "\n\n"
      let response :=
        if 0 < bills.length then
          response ++ "🔝 Top " ++ toString bills.length ++ " 交易记录:\n"
            ++ queryLines 1 bills
        else response ++ "📝 暂无交易记录\n"
      { reply := response, err := none, st := st, ops := [] }

/-- One tool call of the model response: the function name and the
decoded argument map (`none` models arguments that fail to unmarshal). -/
structure ToolCall where
  name : String
  args : Option ArgMap
deriving DecidableEq, Repr

/-- The per-turn context threaded into `Execute`: the raw utterance, the
sender's channel id, the bill-service data, and the server clock values
used when creating bills. -/
structure ExecCtx where
  input : String
  openID : String
  svc : BillServiceData
  nowT : GoTime
  nowUnix : Int
  rnd : Int
deriving Repr

/-- The fixed self-identification prompt returned when a tool other than
`rename_user` is requested before the user has a known name. -/
def selfIdentifyPrompt : String :=
  "我还不知道您是谁？请告诉我您的称呼。\n您可以直接说：我是张三"

/-- The `switch name` dispatch of `Execute`; `none` is the `default`
(unknown operation) branch. -/
def dispatchTool (ctx : ExecCtx) (name : String) (args : ArgMap) (st : St) :
    Option HOut :=
  match name with
  | "record_transaction" =>
    some (handleRecordTransaction args ctx.svc ctx.nowT ctx.nowUnix ctx.rnd st)
  | "update_transaction" => some (handleUpdateTransaction args ctx.input st)
  | "delete_transaction" => some (handleDeleteTransaction args st)
  | "query_transactions" => some (handleQueryTransactions args ctx.svc ctx.nowT st)
  | "rename_user" => some (handleRenameUser args ctx.openID st)
  | _ => none

/-- The running accumulator of the tool-call loop. -/
structure LoopAcc where
  results : List String
  hasError : Bool
  st : St
  ops : List RepoOp
deriving Repr

/-- The loop either completes, or returns early at the identity gate. -/
inductive LoopOut where
  | gated (acc : LoopAcc)
  | done (acc : LoopAcc)
deriving Repr

/-- The `for _, tc := range msg.ToolCalls` loop of `Execute`: skips
unnamed calls, records argument-parse failures, short-circuits at the
identity gate, dispatches, and collects one formatted result per call. -/
def runToolCalls (ctx : ExecCtx) (userName : String) :
    List ToolCall → LoopAcc → LoopOut
  | [], acc => .done acc
  | tc :: rest, acc =>
    if tc.name = "" then runToolCalls ctx userName rest acc
    else
      match tc.args with
      | none =>
        runToolCalls ctx userName rest
          { acc with
            results := acc.results ++ ["❌ " ++ tc.name ++ ": 参数解析失败"]
            hasError := true }
      | some args =>
        if userName = "" ∧ ¬ tc.name = "rename_user" then .gated acc
        else
          match dispatchTool ctx tc.name args acc.st with
          | none =>
            runToolCalls ctx userName rest
              { acc with
                results := acc.results ++ ["❌ 未知操作: " ++ tc.name]
                hasError := true }
          | some hout =>
            match hout.err with
            | some e =>
              runToolCalls ctx userName rest
                { results := acc.results ++ ["❌ " ++ tc.name ++ " 执行失败: " ++ e]
                  hasError := true
                  st := hout.st
                  ops := acc.ops ++ hout.ops }
            | none =>
              runToolCalls ctx userName rest
                { results := acc.results ++ [hout.reply]
                  hasError := acc.hasError
                  st := hout.st
                  ops := acc.ops ++ hout.ops }

/-- The all-success reply: results joined by a blank line. -/
def joinResultsOk : List String → String
  | [] => ""
  | r :: rs => rs.foldl (fun acc x => acc ++ "\n\n" ++ x) r

/-- The partial-failure reply: the banner, then every result on its own
line. -/
def joinResultsPartial (rs : List String) : String :=
  "部分操作完成：\n" ++ rs.foldl (fun acc x => acc ++ x ++ "\n") ""

/-- `OpenAIService.Execute` from the model response onward: with no tool
calls the assistant text is returned verbatim; otherwise the calls are
executed in order and the results aggregated into one reply. The value is
the `(reply, error)` pair together with the final stores and the ledger
operations performed during the turn. -/
def Execute (ctx : ExecCtx) (userName content : String)
    (toolCalls : List ToolCall) (st : St) :
    (String × Option String) × St × List RepoOp :=
  if toolCalls = [] then ((content, none), st, [])
  else
    match runToolCalls ctx userName toolCalls ⟨[], false, st, []⟩ with
    | .gated acc => ((selfIdentifyPrompt, none), acc.st, acc.ops)
    | .done acc =>
      if acc.results = [] then (("未知操作", some "no valid tool calls"), acc.st, acc.ops)
      else if acc.hasError then ((joinResultsPartial acc.results, none), acc.st, acc.ops)
      else ((joinResultsOk acc.results, none), acc.st, acc.ops)

/-- Substring search over character lists (Go's `strings.Contains`). -/
def listContainsSub (cs pat : List Char) : Bool :=
  match cs with
  | [] => pat.isEmpty
  | c :: rest => pat.isPrefixOf (c :: rest) || listContainsSub rest pat

/-- Replace the first occurrence of `pat` (Go's `strings.Replace(s, pat,
rep, 1)` when `pat` occurs). -/
def listReplaceFirst (cs pat rep : List Char) : List Char :=
  match cs with
  | [] => []
  | c :: rest =>
    if pat.isPrefixOf (c :: rest) then rep ++ (c :: rest).drop pat.length
    else c :: listReplaceFirst rest pat rep

/-- A mention entry of a thread message from the Lark SDK. `name`/`key`
are the SDK's nullable string pointers. -/
structure LarkMention where
  name : Option String
  key : Option String
deriving DecidableEq, Repr

/-- The slice of a thread message needed by the addressing logic: its
mention entries (a `none` element models a nil pointer in the slice). -/
structure LarkMessage where
  mentions : List (Option LarkMention)
deriving DecidableEq, Repr

/-- `messageMentionsBot`: whether one thread message's mentions contain
the bot's configured name (nil message or nil fields skip). -/
def messageMentionsBot (msg : Option LarkMessage) (botName : String) : Bool :=
  match msg with
  | none => false
  | some m =>
    m.mentions.any fun mention =>
      match mention with
      | none => false
      | some mm =>
        match mm.name with
        | none => false
        | some n => n == botName

/-- `firstMessageMentionsBot`: whether the first message of the thread
mentions the bot. -/
def firstMessageMentionsBot (messages : List (Option LarkMessage))
    (botName : String) : Bool :=
  match messages with
  | [] => false
  | msg :: _ => messageMentionsBot msg botName

/-- The scan of `checkAndStripMention` over the current message's decoded
mention list: entries that are not objects are skipped; the first entry
whose `name` equals the bot name yields `true` and strips its key from
the text. -/
def checkMentionLoop (botName : String) : List (Option ArgMap) → String → Bool × String
  | [], text => (false, text)
  | none :: rest, text => checkMentionLoop botName rest text
  | some mentionMap :: rest, text =>
    let name := getString mentionMap "name"
    let mentionKey := getString mentionMap "key"
    if name = botName then
      (true,
        if ¬ mentionKey = "" ∧ listContainsSub text.toList mentionKey.toList then
          trimSpace (String.mk (listReplaceFirst text.toList mentionKey.toList []))
        else text)
    else checkMentionLoop botName rest text

/-- `checkAndStripMention` from the webhook handler: decides whether the
current message mentions the bot and removes the mention placeholder.
`mentions = none` models an absent (or non-list) `mentions` field. -/
def checkAndStripMention (text : String) (mentions : Option (List (Option ArgMap)))
    (botName : String) : Bool × String :=
  match mentions with
  | none => (false, text)
  | some mentionList =>
    if mentionList.isEmpty then (false, text)
    else checkMentionLoop botName mentionList text

/-- The group-chat gate of `handleIMMessage`: the turn proceeds when the
current message mentions the bot, or the thread exists, its history
loads, and its first message mentioned the bot. -/
def decideGroupProcess (text : String) (mentions : Option (List (Option ArgMap)))
    (botName threadID : String)
    (threadFetch : Except String (List (Option LarkMessage))) : Bool :=
  let mentioned := (checkAndStripMention text mentions botName).1
  let firstMentioned :=
    if ¬ threadID = "" then
      match threadFetch with
      | .error _ => false
      | .ok msgs => firstMessageMentionsBot msgs botName
    else false
  mentioned || firstMentioned

/-- The chat-type dispatch of `handleIMMessage`: private chats and
unknown chat types always proceed; the three group kinds go through the
mention/thread gate. -/
def messageProcessed (chatType text : String)
    (mentions : Option (List (Option ArgMap))) (botName threadID : String)
    (threadFetch : Except String (List (Option LarkMessage))) : Bool :=
  match chatType with
  | "p2p" => true
  | "group" => decideGroupProcess text mentions botName threadID threadFetch
  | "pgroup" => decideGroupProcess text mentions botName threadID threadFetch
  | "sgroup" => decideGroupProcess text mentions botName threadID threadFetch
  | _ => true

/-- The semantic statement that the current message's mention list names
the bot. -/
def CurrentMentionsBot (mentions : Option (List (Option ArgMap)))
    (botName : String) : Prop :=
  ∃ l, mentions = some l ∧ ∃ m ∈ l, ∃ a, m = some a ∧ getString a "name" = botName

/-- The semantic statement that the thread's first message mentions the
bot. -/
def FirstThreadMsgMentionsBot (messages : List (Option LarkMessage))
    (botName : String) : Prop :=
  ∃ lm, messages.head? = some (some lm) ∧
    ∃ e ∈ lm.mentions, ∃ mm, e = some mm ∧ mm.name = some botName

theorem addDaysNat_within (y : Int) (m : Nat) (k : Nat)
    (hm1 : 1 ≤ m) (hm12 : m ≤ 12) (hk : 1 + k ≤ daysInMonth y m) :
    addDaysNat ⟨y, m, 1⟩ k = ⟨y, m, 1 + k⟩ := by
  induction k with
  | zero => simp [addDaysNat]
  | succ n ih =>
    rw [addDaysNat, ih (by omega)]
    have hlt : (Ymd.mk y m (1 + n)).day <
        daysInMonth (Ymd.mk y m (1 + n)).year (Ymd.mk y m (1 + n)).month := by
      simp only [Ymd.day, Ymd.year, Ymd.month]
      omega
    rw [succDay, if_pos hlt]
    simp only [Ymd.mk.injEq]
    refine ⟨trivial, trivial, ?_⟩
    omega

theorem goDate_exact (d : Ymd) (h : d.Valid) (hh mi ss ns : Nat) :
    goDate d.year (d.month : Int) (d.day : Int) hh mi ss ns =
      { date := d, hour := hh, minute := mi, second := ss, nanosecond := ns } := by
  obtain ⟨y, m, dd⟩ := d
  obtain ⟨hm1, hm12, hd1, hd2⟩ := h
  simp only [Ymd.month] at hm1 hm12
  simp only [Ymd.day, Ymd.year] at hd1 hd2
  unfold goDate
  rw [normMonth_of_range _ _ (by simp only [Ymd.month]; omega)
    (by simp only [Ymd.month]; omega)]
  have hdate : addDays ⟨y, ((m : Int)).toNat, 1⟩
      (((Ymd.mk y m dd).day : Int) - 1) = Ymd.mk y m dd := by
    simp only [Ymd.day, Int.toNat_natCast]
    unfold addDays
    rw [if_pos (by omega)]
    have ht : ((dd : Int) - 1).toNat = dd - 1 := by omega
    rw [ht, addDaysNat_within y m (dd - 1) hm1 hm12 (by omega)]
    simp only [Ymd.mk.injEq]
    refine ⟨trivial, trivial, ?_⟩
    omega
  simp only [Ymd.year, Ymd.month, Ymd.day] at hdate ⊢
  rw [hdate]

theorem goParseDate_valid {s : String} {d : Ymd} (h : goParseDate s = some d) :
    d.Valid := by
  unfold goParseDate at h
  split at h
  · split at h
    · simp only [Option.some.injEq] at h
      subst h
      assumption
    · exact absurd h (by simp)
  · exact absurd h (by simp)

theorem empty_string_parses_none :
    goParseDate "" = none ∧ goParseDateTime "" = none := by
  constructor <;> rfl

theorem ParseTimeRange_custom_eq (s e : String) (now : GoTime) :
    ParseTimeRange "custom" s e now =
      if s = "" ∨ e = "" then
        .error "custom time range requires both start_time and end_time"
      else
        match goParseDateTime s with
        | some startTime => ParseTimeRange.parseCustomEnd startTime e
        | none =>
          match goParseDate s with
          | none => .error "invalid start_time format"
          | some d =>
            ParseTimeRange.parseCustomEnd
              (goDate d.year (d.month : Int) (d.day : Int) 0 0 0 0) e := rfl

/-- Blank-line-separated join, the shape the spec describes for the
all-success reply. -/
def blankLineJoin : List String → String
  | [] => ""
  | [r] => r
  | r :: rs => r ++ "\n\n" ++ blankLineJoin rs

/-- The trailing part of a blank-line join. -/
def blankTail : List String → String
  | [] => ""
  | r :: rs => "\n\n" ++ r ++ blankTail rs

/-- Line-terminated join, the shape the spec describes for the partial
reply's result list. -/
def lineJoin : List String → String
  | [] => ""
  | r :: rs => r ++ "\n" ++ lineJoin rs

theorem foldl_blank (rs : List String) :
    ∀ a : String, rs.foldl (fun acc x => acc ++ "\n\n" ++ x) a = a ++ blankTail rs := by
  induction rs with
  | nil => intro a; simp [blankTail]
  | cons x xs ih =>
    intro a
    rw [List.foldl_cons, ih, blankTail]
    simp [String.append_assoc]

theorem blankLineJoin_eq_tail (r : String) (rs : List String) :
    blankLineJoin (r :: rs) = r ++ blankTail rs := by
  induction rs generalizing r with
  | nil => simp [blankLineJoin, blankTail]
  | cons x xs ih =>
    rw [show blankLineJoin (r :: x :: xs) = r ++ "\n\n" ++ blankLineJoin (x :: xs)
      from rfl, ih, blankTail]
    simp [String.append_assoc]

theorem joinResultsOk_eq (r : String) (rs : List String) :
    joinResultsOk (r :: rs) = blankLineJoin (r :: rs) := by
  rw [joinResultsOk, foldl_blank, blankLineJoin_eq_tail]

theorem foldl_line (rs : List String) :
    ∀ a : String, rs.foldl (fun acc x => acc ++ x ++ "\n") a = a ++ lineJoin rs := by
  induction rs with
  | nil => intro a; simp [lineJoin]
  | cons x xs ih =>
    intro a
    rw [List.foldl_cons, ih, lineJoin]
    simp [String.append_assoc]

theorem joinResultsPartial_eq (rs : List String) :
    joinResultsPartial rs = "部分操作完成：\n" ++ lineJoin rs := by
  rw [joinResultsPartial, foldl_line]
  simp

theorem handleRenameUser_frame (args : ArgMap) (openID : String) (st : St) :
    (handleRenameUser args openID st).st.bills = st.bills ∧
      (handleRenameUser args openID st).ops = [] := by
  unfold handleRenameUser
  by_cases h : getString args "name" = ""
  · simp [h]
  · simp only [h, if_false]
    rcases hset : SetUserName st.users openID (getString args "name") with e | u
    · simp [hset]
    · simp [hset]

theorem runToolCalls_known (ctx : ExecCtx) {userName : String}
    (h : ¬ userName = "") :
    ∀ (calls : List ToolCall) (acc : LoopAcc), ∃ acc2,
      runToolCalls ctx userName calls acc = .done acc2 ∧
        acc2.results.length =
          acc.results.length + (calls.filter (fun tc => !(tc.name == ""))).length := by
  intro calls
  induction calls with
  | nil =>
    intro acc
    exact ⟨acc, rfl, by simp [runToolCalls]⟩
  | cons tc rest ih =>
    intro acc
    rw [runToolCalls]
    by_cases hname : tc.name = ""
    · rw [if_pos hname]
      obtain ⟨acc2, hrun, hlen⟩ := ih acc
      refine ⟨acc2, hrun, ?_⟩
      rw [hlen]
      simp [List.filter_cons, hname]
    · rw [if_neg hname]
      have hfil : (List.filter (fun tc => !(tc.name == "")) (tc :: rest)).length
          = (List.filter (fun tc => !(tc.name == "")) rest).length + 1 := by
        simp [List.filter_cons, hname]
      split
      · obtain ⟨acc2, hrun, hlen⟩ := ih _
        refine ⟨acc2, hrun, ?_⟩
        rw [hlen, hfil]
        simp only [List.length_append, List.length_cons, List.length_nil]
        omega
      · rw [if_neg (by simp [h])]
        split
        · obtain ⟨acc2, hrun, hlen⟩ := ih _
          refine ⟨acc2, hrun, ?_⟩
          rw [hlen, hfil]
          simp only [List.length_append, List.length_cons, List.length_nil]
          omega
        · split
          · obtain ⟨acc2, hrun, hlen⟩ := ih _
            refine ⟨acc2, hrun, ?_⟩
            rw [hlen, hfil]
            simp only [List.length_append, List.length_cons, List.length_nil]
            omega
          · obtain ⟨acc2, hrun, hlen⟩ := ih _
            refine ⟨acc2, hrun, ?_⟩
            rw [hlen, hfil]
            simp only [List.length_append, List.length_cons, List.length_nil]
            omega

/-- The accumulator carried by either loop outcome. -/
def outAcc : LoopOut → LoopAcc
  | .gated a => a
  | .done a => a

theorem runToolCalls_unknown_frame (ctx : ExecCtx) :
    ∀ (calls : List ToolCall) (acc : LoopAcc),
      (outAcc (runToolCalls ctx "" calls acc)).st.bills = acc.st.bills ∧
        (outAcc (runToolCalls ctx "" calls acc)).ops = acc.ops := by
  intro calls
  induction calls with
  | nil => intro acc; exact ⟨rfl, rfl⟩
  | cons tc rest ih =>
    intro acc
    rw [runToolCalls]
    by_cases hname : tc.name = ""
    · rw [if_pos hname]
      exact ih acc
    · rw [if_neg hname]
      rcases hargs : tc.args with _ | args
      · simp only [hargs]
        exact ih _
      · simp only [hargs]
        by_cases hrn : tc.name = "rename_user"
        · rw [if_neg (by simp [hrn])]
          rw [hrn]
          rw [show dispatchTool ctx "rename_user" args acc.st
            = some (handleRenameUser args ctx.openID acc.st) from rfl]
          have hfr := handleRenameUser_frame args ctx.openID acc.st
          rcases herr : (handleRenameUser args ctx.openID acc.st).err with _ | e
          · simp only [herr]
            refine ⟨?_, ?_⟩
            · rw [(ih _).1]
              exact hfr.1
            · rw [(ih _).2]
              show acc.ops ++ (handleRenameUser args ctx.openID acc.st).ops = acc.ops
              rw [hfr.2]
              simp
          · simp only [herr]
            refine ⟨?_, ?_⟩
            · rw [(ih _).1]
              exact hfr.1
            · rw [(ih _).2]
              show acc.ops ++ (handleRenameUser args ctx.openID acc.st).ops = acc.ops
              rw [hfr.2]
              simp
        · rw [if_pos (show _ ∧ _ by simp [hrn])]
          exact ⟨rfl, rfl⟩

theorem runToolCalls_unknown_gated (ctx : ExecCtx) :
    ∀ (calls : List ToolCall) (acc : LoopAcc),
      (∃ tc ∈ calls, ¬ tc.name = "" ∧ tc.args.isSome ∧ ¬ tc.name = "rename_user") →
      ∃ acc2, runToolCalls ctx "" calls acc = .gated acc2 := by
  intro calls
  induction calls with
  | nil =>
    rintro acc ⟨tc, htc, _⟩
    exact absurd htc (List.not_mem_nil tc)
  | cons tc rest ih =>
    rintro acc ⟨tcw, htcw, hw1, hw2, hw3⟩
    rw [runToolCalls]
    by_cases hname : tc.name = ""
    · rw [if_pos hname]
      rcases List.mem_cons.mp htcw with rfl | hmem
      · exact absurd hname hw1
      · exact ih acc ⟨tcw, hmem, hw1, hw2, hw3⟩
    · rw [if_neg hname]
      rcases hargs : tc.args with _ | args
      · simp only [hargs]
        rcases List.mem_cons.mp htcw with rfl | hmem
        · rw [hargs] at hw2
          simp at hw2
        · exact ih _ ⟨tcw, hmem, hw1, hw2, hw3⟩
      · simp only [hargs]
        by_cases hrn : tc.name = "rename_user"
        · rw [if_neg (by simp [hrn])]
          rw [hrn]
          rw [show dispatchTool ctx "rename_user" args acc.st
            = some (handleRenameUser args ctx.openID acc.st) from rfl]
          have hmem : tcw ∈ rest := by
            rcases List.mem_cons.mp htcw with rfl | hmem
            · exact absurd hrn hw3
            · exact hmem
          rcases herr : (handleRenameUser args ctx.openID acc.st).err with _ | e
          · simp only [herr]
            exact ih _ ⟨tcw, hmem, hw1, hw2, hw3⟩
          · simp only [herr]
            exact ih _ ⟨tcw, hmem, hw1, hw2, hw3⟩
        · rw [if_pos (show _ ∧ _ by simp [hrn])]
          exact ⟨acc, rfl⟩

/-- The conclusion of the amended identity-gating claim. -/
def GateSpec (ctx : ExecCtx) (content : String) (calls : List ToolCall)
    (st : St) : Prop :=
  ((∃ tc ∈ calls, ¬ tc.name = "" ∧ tc.args.isSome ∧ ¬ tc.name = "rename_user") →
    (Execute ctx "" content calls st).1 = (selfIdentifyPrompt, none)) ∧
  (Execute ctx "" content calls st).2.1.bills = st.bills ∧
  (Execute ctx "" content calls st).2.2 = []

/-- A fixed example instant used by the concrete theorems. -/
def exampleNow : GoTime := ⟨⟨2026, 10, 11⟩, 12, 0, 0, 0⟩

/-- An execution context with the user still unidentified. -/
def unknownUserCtx : ExecCtx :=
  { input := "午饭30元", openID := "ou_1",
    svc := { userID := "ou_1", userName := "", originalMsg := "午饭30元" },
    nowT := exampleNow, nowUnix := 1760184000, rnd := 42 }

/-- C1 (corrected, counterexample): with the display name unknown and the
single tool invocation named `record_transaction` but carrying
unparseable arguments, `Execute` answers with the partial-completion
report of a per-invocation parse error — not the fixed
self-identification prompt the claim requires for every turn containing a
non-`rename_user` invocation. -/
theorem execute_gate_missed_on_unparseable_args :
    ¬ ("record_transaction" = "rename_user") ∧
    (Execute unknownUserCtx "" "" [⟨"record_transaction", none⟩] ⟨[], []⟩).1
      = ("部分操作完成：\n❌ record_transaction: 参数解析失败\n", none) ∧
    ¬ (Execute unknownUserCtx "" "" [⟨"record_transaction", none⟩] ⟨[], []⟩).1.1
      = selfIdentifyPrompt := by
  refine ⟨by decide, rfl, by decide⟩

/-- C1 (corrected, amended): when the display name is unknown, no ledger
create/update/delete is ever performed in the turn, and `Execute`
returns the fixed self-identification prompt as soon as the turn contains
at least one invocation that has a nonempty name, parseable arguments,
and is not `rename_user`. (The claim's original wording also promised the
prompt when the only non-rename invocations have unparseable arguments
or empty names, which the code instead reports as per-invocation
errors.) -/
theorem execute_unknown_user_gating (ctx : ExecCtx) (content : String)
    (calls : List ToolCall) (st : St) : GateSpec ctx content calls st := by
  unfold GateSpec
  unfold Execute
  by_cases hnil : calls = []
  · rw [if_pos hnil]
    subst hnil
    refine ⟨?_, rfl, rfl⟩
    rintro ⟨tc, htc, _⟩
    exact absurd htc (List.not_mem_nil tc)
  · rw [if_neg hnil]
    have hframe := runToolCalls_unknown_frame ctx calls ⟨[], false, st, []⟩
    refine ⟨?_, ?_⟩
    · intro hex
      obtain ⟨acc2, hg⟩ := runToolCalls_unknown_gated ctx calls ⟨[], false, st, []⟩ hex
      rw [hg]
    · rcases hr : runToolCalls ctx "" calls ⟨[], false, st, []⟩ with acc2 | acc2
      · rw [hr] at hframe
        exact ⟨hframe.1, hframe.2⟩
      · rw [hr] at hframe
        dsimp only
        refine ⟨?_, ?_⟩
        · split
          · exact hframe.1
          · split
            · exact hframe.1
            · exact hframe.1
        · split
          · exact hframe.2
          · split
            · exact hframe.2
            · exact hframe.2

/-- C1 witness: the amended theorem applied at a concrete turn — one
well-formed `record_transaction` invocation while the user is unknown. -/
theorem execute_unknown_user_gating_witness :
    GateSpec unknownUserCtx ""
      [⟨"record_transaction", some [("description", .str "午饭"), ("amount", .num 30)]⟩]
      ⟨[], []⟩ :=
  execute_unknown_user_gating unknownUserCtx ""
    [⟨"record_transaction", some [("description", .str "午饭"), ("amount", .num 30)]⟩]
    ⟨[], []⟩

/-- The conclusion of the record-transaction claim: the created and
stored bill carries the input amount (hence positive), the non-empty
description, a never-empty category (defaulted to the "other" category
`"其他"` when the argument is empty), and the server's current time as
its date. -/
def RecordSpec (args : ArgMap) (svc : BillServiceData) (nowT : GoTime)
    (nowUnix rnd : Int) (st : St) : Prop :=
  (handleRecordTransaction args svc nowT nowUnix rnd st).err = none ∧
  ∃ b : Bill,
    (handleRecordTransaction args svc nowT nowUnix rnd st).ops = [RepoOp.createBill b] ∧
    (handleRecordTransaction args svc nowT nowUnix rnd st).st.bills
      = st.bills ++ [(b.id, b)] ∧
    (handleRecordTransaction args svc nowT nowUnix rnd st).st.users = st.users ∧
    b.amount = getFloat64 args "amount" ∧ 0 < b.amount ∧
    b.description = getString args "description" ∧
    ¬ b.category = "" ∧
    (getString args "category" = "" → b.category = "其他") ∧
    b.date = nowT

/-- C2 (confirmed): every `record_transaction` invocation with a
non-empty description and a positive amount creates and stores exactly
one bill whose amount equals the input, whose description is the given
one, whose category is never empty (server-defaulted to `"其他"`), and
whose occurrence date is the server's current time — the handler never
reads a date argument, so the conclusion holds for every argument map,
whatever date value the model supplies. -/
theorem record_transaction_stores_valid_bill (args : ArgMap)
    (svc : BillServiceData) (nowT : GoTime) (nowUnix rnd : Int) (st : St)
    (hdesc : ¬ getString args "description" = "")
    (hamt : 0 < getFloat64 args "amount") :
    RecordSpec args svc nowT nowUnix rnd st := by
  unfold RecordSpec handleRecordTransaction
  rw [if_neg (by push_neg; exact ⟨hdesc, by linarith⟩)]
  unfold svcCreateBill usecaseCreateBill repoCreateBill
  refine ⟨rfl, ?_⟩
  refine ⟨_, rfl, rfl, rfl, rfl, hamt, rfl, ?_, ?_, rfl⟩
  · by_cases hc : getString args "category" = "" <;> simp [hc]
  · intro hc
    simp [hc]

/-- C2 witness: the theorem applied at a concrete invocation. -/
theorem record_transaction_stores_valid_bill_witness :
    RecordSpec [("description", .str "午饭"), ("amount", .num 30),
        ("type", .str "expense"), ("date", .str "2020-01-01")]
      ⟨"ou_1", "张三", "午饭30元"⟩ exampleNow 1760184000 42 ⟨[], []⟩ :=
  record_transaction_stores_valid_bill _ _ _ _ _ _ (by decide) (by decide)

/-- The stored record behind the C3 scenario. -/
def c3Bill : Bill :=
  { id := "rec_c3", description := "午饭", amount := 30, type := .expense,
    category := "餐饮", date := exampleNow, userName := "张三",
    originalMsg := "午饭30元", recordID := "" }

/-- A ledger holding only the C3 record. -/
def c3St : St := ⟨[("rec_c3", c3Bill)], []⟩

/-- The C3 invocation: `record_id` plus only `amount`. -/
def c3Args : ArgMap := [("record_id", .str "rec_c3"), ("amount", .num 35)]

/-- C3 (code_bug): an `update_transaction` supplying only `amount` does
change the stored amount and leaves description, category and type
untouched — but the stored original message stays the prior value
`"午饭30元"` instead of becoming the concatenation
`"午饭30元 | 改成35元"`: the handler composes the combined message and
passes it under the `original_message` key, yet
`BillUseCaseImpl.UpdateBill` never reads that key, contradicting the
handler's stated intent of accumulating the audit trail. -/
theorem update_transaction_drops_original_message :
    (handleUpdateTransaction c3Args "改成35元" c3St).err = none ∧
    lookupKey (handleUpdateTransaction c3Args "改成35元" c3St).st.bills "rec_c3"
      = some { c3Bill with amount := 35 } ∧
    ({ c3Bill with amount := 35 } : Bill).originalMsg = "午饭30元" ∧
    ¬ ("午饭30元" = "午饭30元 | 改成35元") ∧
    (handleUpdateTransaction c3Args "改成35元" c3St).ops
      = [RepoOp.updateBill { c3Bill with amount := 35 }] := by
  refine ⟨rfl, by decide, rfl, by decide, by decide⟩

/-- The stored record behind the C7 counterexample. -/
def c7Bill : Bill :=
  { id := "rec_c7", description := "打车", amount := 45, type := .expense,
    category := "交通", date := exampleNow, userName := "张三",
    originalMsg := "打车45元", recordID := "" }

/-- A ledger holding only the C7 record. -/
def c7St : St := ⟨[("rec_c7", c7Bill)], []⟩

/-- C7 (corrected, counterexample): an `update_transaction` supplying a
valid `record_id` and none of the updatable fields, issued from a
non-empty utterance, does not fail — the composed original message
counts as a supplied field, so the update succeeds and a repository
update is performed. -/
theorem update_only_record_id_not_rejected :
    ¬ (handleUpdateTransaction [("record_id", .str "rec_c7")] "改一下" c7St).err
        = some "no fields to update" ∧
    (handleUpdateTransaction [("record_id", .str "rec_c7")] "改一下" c7St).err = none ∧
    ¬ (handleUpdateTransaction [("record_id", .str "rec_c7")] "改一下" c7St).ops = [] := by
  refine ⟨by decide, rfl, by decide⟩

/-- C7 (corrected, amended): an `update_transaction` with a `record_id`
but no updatable field fails with the no-fields-to-update error — and
performs no repository update — exactly in the cases where no original
message is composed either: the current utterance is empty, the
invocation supplies no `original_message`, and the fetched record (if
any) has no stored original message. -/
theorem update_no_fields_error_amended (args : ArgMap) (input : String)
    (st : St)
    (hrid : ¬ getString args "record_id" = "")
    (hdesc : getString args "description" = "")
    (hamt : getFloat64 args "amount" ≤ 0)
    (htype : getString args "type" = "")
    (hcat : getString args "category" = "")
    (hinput : input = "")
    (horig : getString args "original_message" = "")
    (hbill : ∀ b, repoGetBill st (getString args "record_id") = .ok b →
      b.originalMsg = "") :
    (handleUpdateTransaction args input st).err = some "no fields to update" ∧
    (handleUpdateTransaction args input st).st = st ∧
    (handleUpdateTransaction args input st).ops = [] := by
  subst hinput
  unfold handleUpdateTransaction
  rw [if_neg hrid]
  rcases hg : repoGetBill st (getString args "record_id") with e | b
  · simp [hg, hdesc, htype, hcat, not_lt.mpr hamt]
  · have hb := hbill b hg
    simp [hg, hdesc, htype, hcat, hb, horig, not_lt.mpr hamt]

/-- A record with no stored original message, for the C7 witness. -/
def c7EmptyBill : Bill :=
  { id := "rec_c7e", description := "水费", amount := 80, type := .expense,
    category := "水电", date := exampleNow, userName := "张三",
    originalMsg := "", recordID := "" }

/-- C7 witness: the amended theorem applied at a concrete invocation
whose utterance is empty and whose record carries no original message. -/
theorem update_no_fields_error_amended_witness :
    (handleUpdateTransaction [("record_id", .str "rec_c7e")] ""
        ⟨[("rec_c7e", c7EmptyBill)], []⟩).err = some "no fields to update" ∧
    (handleUpdateTransaction [("record_id", .str "rec_c7e")] ""
        ⟨[("rec_c7e", c7EmptyBill)], []⟩).st = ⟨[("rec_c7e", c7EmptyBill)], []⟩ ∧
    (handleUpdateTransaction [("record_id", .str "rec_c7e")] ""
        ⟨[("rec_c7e", c7EmptyBill)], []⟩).ops = [] :=
  update_no_fields_error_amended _ _ _ (by decide) (by decide) (by decide)
    (by decide) (by decide) rfl (by decide)
    (by
      intro b hb
      rw [show repoGetBill ⟨[("rec_c7e", c7EmptyBill)], []⟩
        (getString [("record_id", JsonVal.str "rec_c7e")] "record_id")
        = Except.ok c7EmptyBill from rfl] at hb
      injection hb with h
      rw [← h]
      rfl)

theorem runToolCalls_error_invariant (ctx : ExecCtx) (userName : String) :
    ∀ (calls : List ToolCall) (acc : LoopAcc),
      (acc.hasError = true → ¬ acc.results = []) →
      ∀ acc2, runToolCalls ctx userName calls acc = .done acc2 →
        (acc2.hasError = true → ¬ acc2.results = []) := by
  intro calls
  induction calls with
  | nil =>
    intro acc hI acc2 hrun
    rw [runToolCalls] at hrun
    injection hrun with h
    rw [← h]
    exact hI
  | cons tc rest ih =>
    intro acc hI acc2 hrun
    rw [runToolCalls] at hrun
    by_cases hname : tc.name = ""
    · rw [if_pos hname] at hrun
      exact ih acc hI acc2 hrun
    · rw [if_neg hname] at hrun
      rcases hargs : tc.args with _ | args
      · simp only [hargs] at hrun
        refine ih _ ?_ acc2 hrun
        intro _
        simp
      · simp only [hargs] at hrun
        by_cases hgate : userName = "" ∧ ¬ tc.name = "rename_user"
        · rw [if_pos hgate] at hrun
          exact absurd hrun (by simp)
        · rw [if_neg hgate] at hrun
          rcases hdisp : dispatchTool ctx tc.name args acc.st with _ | hout
          · rw [hdisp] at hrun
            dsimp only at hrun
            refine ih _ ?_ acc2 hrun
            intro _
            simp
          · rw [hdisp] at hrun
            dsimp only at hrun
            rcases herr : hout.err with _ | e
            · rw [herr] at hrun
              dsimp only at hrun
              refine ih _ ?_ acc2 hrun
              intro hE
              simp only at hE
              intro hcontra
              simp only at hcontra
              exact (hI hE) (by simpa using hcontra)
            · rw [herr] at hrun
              dsimp only at hrun
              refine ih _ ?_ acc2 hrun
              intro _
              simp

/-- The conclusion of the aggregation claim: the loop always completes
for a known user with one result per named invocation, and `Execute`
answers with the no-valid-operation error when no result was produced,
the blank-line-joined confirmations when all results succeeded, and the
partially-completed banner followed by every result line when any
invocation failed. -/
def AggSpec (ctx : ExecCtx) (userName content : String)
    (calls : List ToolCall) (st : St) : Prop :=
  ∃ acc, runToolCalls ctx userName calls ⟨[], false, st, []⟩ = .done acc ∧
    acc.results.length = (calls.filter (fun tc => !(tc.name == ""))).length ∧
    (acc.results = [] →
      Execute ctx userName content calls st
        = (("未知操作", some "no valid tool calls"), acc.st, acc.ops)) ∧
    (¬ acc.results = [] → acc.hasError = false →
      (Execute ctx userName content calls st).1 = (blankLineJoin acc.results, none)) ∧
    (acc.hasError = true →
      (Execute ctx userName content calls st).1
        = ("部分操作完成：\n" ++ lineJoin acc.results, none))

/-- C4 (confirmed): for a known user every tool invocation of the turn is
attempted — the loop never aborts early and yields exactly one result per
invocation with a nonempty name, in order — and the reply is aggregated
as claimed: all results successful gives the confirmations joined by a
blank line; any failure gives the partially-completed banner with every
result (success or failure) listed in order; no valid invocation at all
gives the no-valid-operation error. -/
theorem execute_batch_aggregation (ctx : ExecCtx) (userName content : String)
    (calls : List ToolCall) (st : St) (hU : ¬ userName = "")
    (hC : ¬ calls = []) : AggSpec ctx userName content calls st := by
  obtain ⟨acc, hrun, hlen⟩ := runToolCalls_known ctx hU calls ⟨[], false, st, []⟩
  refine ⟨acc, hrun, by simpa using hlen, ?_, ?_, ?_⟩
  · intro hres
    unfold Execute
    rw [if_neg hC, hrun]
    dsimp only
    rw [if_pos hres]
  · intro hres hErr
    unfold Execute
    rw [if_neg hC, hrun]
    dsimp only
    rw [if_neg hres, if_neg (by simp [hErr])]
    obtain ⟨r, rs, hcons⟩ := List.exists_cons_of_ne_nil hres
    rw [hcons, joinResultsOk_eq]
  · intro hErr
    have hres : ¬ acc.results = [] :=
      runToolCalls_error_invariant ctx userName calls ⟨[], false, st, []⟩
        (by intro h; simp at h) acc hrun hErr
    unfold Execute
    rw [if_neg hC, hrun]
    dsimp only
    rw [if_neg hres, if_pos hErr, joinResultsPartial_eq]

/-- An execution context for the identified user `张三`. -/
def knownUserCtx : ExecCtx :=
  { input := "午饭30元，打车45元", openID := "ou_1",
    svc := { userID := "ou_1", userName := "张三", originalMsg := "午饭30元，打车45元" },
    nowT := exampleNow, nowUnix := 1760184000, rnd := 42 }

/-- C4 witness: the theorem applied at a concrete two-invocation turn
(one valid recording, one with an invalid amount). -/
theorem execute_batch_aggregation_witness :
    AggSpec knownUserCtx "张三" ""
      [⟨"record_transaction", some [("description", .str "午饭"), ("amount", .num 30),
          ("type", .str "expense"), ("category", .str "餐饮")]⟩,
        ⟨"record_transaction", some [("description", .str ""), ("amount", .num 0)]⟩]
      ⟨[], []⟩ :=
  execute_batch_aggregation knownUserCtx "张三" "" _ _ (by decide) (by decide)

theorem parseCustomEnd_err (startTime : GoTime) (e : String)
    (h1 : goParseDateTime e = none) (h2 : goParseDate e = none) :
    ParseTimeRange.parseCustomEnd startTime e = .error "invalid end_time format" := by
  unfold ParseTimeRange.parseCustomEnd
  simp only [h1, h2]

theorem parseCustomEnd_full (startTime : GoTime) (e : String) (t : GoTime)
    (h : goParseDateTime e = some t) :
    ParseTimeRange.parseCustomEnd startTime e = .ok (startTime, t) := by
  unfold ParseTimeRange.parseCustomEnd
  simp only [h]

theorem parseCustomEnd_dateOnly (startTime : GoTime) (e : String) (d : Ymd)
    (h1 : goParseDateTime e = none) (h2 : goParseDate e = some d) :
    ParseTimeRange.parseCustomEnd startTime e
      = .ok (startTime, goDate d.year (d.month : Int) (d.day : Int) 23 59 59 999999999) := by
  unfold ParseTimeRange.parseCustomEnd
  simp only [h1, h2]

/-- C5 (confirmed): custom time-range resolution parses each bound
independently — full `YYYY-MM-DD hh:mm:ss` first, then `YYYY-MM-DD` with
the start bound resolving to 00:00:00 and the end bound to 23:59:59 (Go's
999999999 nanoseconds); in particular `"2024-12-01"`/`"2024-12-10"`
resolve to 2024-12-01 00:00:00 and 2024-12-10 23:59:59; and a bound that
fails both formats fails the whole resolution with an error. -/
theorem custom_time_range_resolution :
    (∀ now, ParseTimeRange "custom" "2024-12-01" "2024-12-10" now
      = .ok (⟨⟨2024, 12, 1⟩, 0, 0, 0, 0⟩, ⟨⟨2024, 12, 10⟩, 23, 59, 59, 999999999⟩)) ∧
    (∀ s e now, goParseDateTime s = none → goParseDate s = none →
      ∃ msg, ParseTimeRange "custom" s e now = .error msg) ∧
    (∀ s e now, goParseDateTime e = none → goParseDate e = none →
      ∃ msg, ParseTimeRange "custom" s e now = .error msg) ∧
    (∀ s e now t p, goParseDateTime s = some t →
      ParseTimeRange "custom" s e now = .ok p → p.1 = t) ∧
    (∀ s e now d p, goParseDateTime s = none → goParseDate s = some d →
      ParseTimeRange "custom" s e now = .ok p → p.1 = ⟨d, 0, 0, 0, 0⟩) ∧
    (∀ s e now t p, goParseDateTime e = some t →
      ParseTimeRange "custom" s e now = .ok p → p.2 = t) ∧
    (∀ s e now d p, goParseDateTime e = none → goParseDate e = some d →
      ParseTimeRange "custom" s e now = .ok p →
      p.2 = ⟨d, 23, 59, 59, 999999999⟩) := by
  refine ⟨fun now => rfl, ?_, ?_, ?_, ?_, ?_, ?_⟩
  · intro s e now h1 h2
    rw [ParseTimeRange_custom_eq]
    by_cases hse : s = "" ∨ e = ""
    · rw [if_pos hse]
      exact ⟨_, rfl⟩
    · rw [if_neg hse]
      simp only [h1, h2]
      exact ⟨_, rfl⟩
  · intro s e now h1 h2
    rw [ParseTimeRange_custom_eq]
    by_cases hse : s = "" ∨ e = ""
    · rw [if_pos hse]
      exact ⟨_, rfl⟩
    · rw [if_neg hse]
      rcases hs : goParseDateTime s with _ | t
      · simp only [hs]
        rcases hs2 : goParseDate s with _ | d
        · simp only [hs2]
          exact ⟨_, rfl⟩
        · simp only [hs2]
          exact ⟨_, parseCustomEnd_err _ e h1 h2⟩
      · simp only [hs]
        exact ⟨_, parseCustomEnd_err _ e h1 h2⟩
  · intro s e now t p hs hok
    rw [ParseTimeRange_custom_eq] at hok
    by_cases hse : s = "" ∨ e = ""
    · rw [if_pos hse] at hok
      exact absurd hok (by simp)
    · rw [if_neg hse] at hok
      simp only [hs] at hok
      rcases he : goParseDateTime e with _ | t2
      · rcases he2 : goParseDate e with _ | d
        · rw [parseCustomEnd_err _ e he he2] at hok
          exact absurd hok (by simp)
        · rw [parseCustomEnd_dateOnly _ e d he he2] at hok
          injection hok with h
          rw [← h]
      · rw [parseCustomEnd_full _ e t2 he] at hok
        injection hok with h
        rw [← h]
  · intro s e now d p hs1 hs2 hok
    rw [ParseTimeRange_custom_eq] at hok
    by_cases hse : s = "" ∨ e = ""
    · rw [if_pos hse] at hok
      exact absurd hok (by simp)
    · rw [if_neg hse] at hok
      simp only [hs1, hs2] at hok
      have hval := goParseDate_valid hs2
      rw [goDate_exact d hval 0 0 0 0] at hok
      rcases he : goParseDateTime e with _ | t2
      · rcases he2 : goParseDate e with _ | d2
        · rw [parseCustomEnd_err _ e he he2] at hok
          exact absurd hok (by simp)
        · rw [parseCustomEnd_dateOnly _ e d2 he he2] at hok
          injection hok with h
          rw [← h]
      · rw [parseCustomEnd_full _ e t2 he] at hok
        injection hok with h
        rw [← h]
  · intro s e now t p he hok
    rw [ParseTimeRange_custom_eq] at hok
    by_cases hse : s = "" ∨ e = ""
    · rw [if_pos hse] at hok
      exact absurd hok (by simp)
    · rw [if_neg hse] at hok
      rcases hs : goParseDateTime s with _ | t1
      · simp only [hs] at hok
        rcases hs2 : goParseDate s with _ | d1
        · simp only [hs2] at hok
          exact absurd hok (by simp)
        · simp only [hs2] at hok
          rw [parseCustomEnd_full _ e t he] at hok
          injection hok with h
          rw [← h]
      · simp only [hs] at hok
        rw [parseCustomEnd_full _ e t he] at hok
        injection hok with h
        rw [← h]
  · intro s e now d p he1 he2 hok
    rw [ParseTimeRange_custom_eq] at hok
    by_cases hse : s = "" ∨ e = ""
    · rw [if_pos hse] at hok
      exact absurd hok (by simp)
    · rw [if_neg hse] at hok
      have hval := goParseDate_valid he2
      have hend := fun stm => parseCustomEnd_dateOnly stm e d he1 he2
      rcases hs : goParseDateTime s with _ | t1
      · simp only [hs] at hok
        rcases hs2 : goParseDate s with _ | d1
        · simp only [hs2] at hok
          exact absurd hok (by simp)
        · simp only [hs2] at hok
          rw [hend] at hok
          injection hok with h
          rw [← h, goDate_exact d hval 23 59 59 999999999]
      · simp only [hs] at hok
        rw [hend] at hok
        injection hok with h
        rw [← h, goDate_exact d hval 23 59 59 999999999]

/-- C5 witness: the theorem's concrete part at a fixed instant, plus its
failure part at a bound in the wrong format. -/
theorem custom_time_range_resolution_witness :
    ParseTimeRange "custom" "2024-12-01" "2024-12-10" exampleNow
      = .ok (⟨⟨2024, 12, 1⟩, 0, 0, 0, 0⟩, ⟨⟨2024, 12, 10⟩, 23, 59, 59, 999999999⟩) ∧
    (∃ msg, ParseTimeRange "custom" "12/01/2024" "2024-12-10" exampleNow
      = .error msg) :=
  ⟨custom_time_range_resolution.1 exampleNow,
    custom_time_range_resolution.2.1 "12/01/2024" "2024-12-10" exampleNow
      (by decide) (by decide)⟩

/-- The conclusion of the this_week claim: the resolved range starts on a
Monday at 00:00:00, ends on the Sunday six days later at 23:59:59 (Go's
999999999 nanoseconds), the current day lies inside the range, and on a
Sunday the start is the preceding Monday (Sunday counted as day 7 of the
week it concludes). -/
def ThisWeekSpec (now : GoTime) : Prop :=
  ∃ s e, ParseTimeRange "this_week" "" "" now = .ok (s, e) ∧
    goWeekday s.date = 1 ∧ s.hour = 0 ∧ s.minute = 0 ∧ s.second = 0 ∧
    s.nanosecond = 0 ∧
    goWeekday e.date = 0 ∧ e.hour = 23 ∧ e.minute = 59 ∧ e.second = 59 ∧
    e.nanosecond = 999999999 ∧
    dayNumber e.date = dayNumber s.date + 6 ∧
    dayNumber s.date ≤ dayNumber now.date ∧
    dayNumber now.date ≤ dayNumber e.date ∧
    (goWeekday now.date = 0 → dayNumber s.date = dayNumber now.date - 6)

theorem goWeekday_shift (t : GoTime) (h : t.date.Valid) (n : Int) :
    goWeekday ((addDate t 0 0 n).date) = (dayNumber t.date + n + 1) % 7 := by
  unfold goWeekday
  rw [(addDate_days_spec t h n).2.1]

/-- C6 (confirmed): for every valid current instant, resolving the
`this_week` preset yields a Monday-00:00:00 start and the following
Sunday-23:59:59 end of the ISO week containing the current day, with
Sunday treated as day 7 of the week it concludes. -/
theorem this_week_resolution (now : GoTime) (h : now.date.Valid) :
    ThisWeekSpec now := by
  unfold ThisWeekSpec
  have hwd : goWeekday now.date = (dayNumber now.date + 1) % 7 := rfl
  have hwd0 : (0 : Int) ≤ (dayNumber now.date + 1) % 7 :=
    Int.emod_nonneg _ (by norm_num)
  have hwd7 : (dayNumber now.date + 1) % 7 < 7 :=
    Int.emod_lt_of_pos _ (by norm_num)
  have hmon := addDate_days_spec now h
    (-((if goWeekday now.date = 0 then 7 else goWeekday now.date) - 1))
  have hs := goDate_exact _ hmon.1 0 0 0 0
  have hsun := addDate_days_spec
    (addDate now 0 0
      (-((if goWeekday now.date = 0 then 7 else goWeekday now.date) - 1)))
    hmon.1 6
  have he := goDate_exact _ hsun.1 23 59 59 999999999
  refine ⟨_, _, rfl, ?_, ?_, ?_, ?_, ?_, ?_, ?_, ?_, ?_, ?_, ?_, ?_, ?_, ?_⟩
  · rw [hs]
    dsimp only
    rw [goWeekday_shift now h, hwd]
    by_cases hz : (dayNumber now.date + 1) % 7 = 0 <;> simp [hz] <;> omega
  · rw [hs]
  · rw [hs]
  · rw [hs]
  · rw [hs]
  · rw [he]
    dsimp only
    rw [goWeekday_shift _ hmon.1, hmon.2.1, hwd]
    by_cases hz : (dayNumber now.date + 1) % 7 = 0 <;> simp [hz] <;> omega
  · rw [he]
  · rw [he]
  · rw [he]
  · rw [he]
  · rw [hs, he]
    dsimp only
    exact hsun.2.1
  · rw [hs]
    dsimp only
    rw [hmon.2.1, hwd]
    by_cases hz : (dayNumber now.date + 1) % 7 = 0 <;> simp [hz] <;> omega
  · rw [he]
    dsimp only
    rw [hsun.2.1, hmon.2.1, hwd]
    by_cases hz : (dayNumber now.date + 1) % 7 = 0 <;> simp [hz] <;> omega
  · intro hz
    rw [hs]
    dsimp only
    rw [hmon.2.1, hz]
    simp
    omega

/-- C6 witness: the theorem applied at a concrete Sunday instant
(2026-10-11 is a Sunday). -/
theorem this_week_resolution_witness : ThisWeekSpec ⟨⟨2026, 10, 11⟩, 12, 0, 0, 0⟩ :=
  this_week_resolution ⟨⟨2026, 10, 11⟩, 12, 0, 0, 0⟩ (by decide)

theorem checkMentionLoop_iff (botName : String) :
    ∀ (l : List (Option ArgMap)) (text : String),
      ((checkMentionLoop botName l text).1 = true ↔
        ∃ m ∈ l, ∃ a, m = some a ∧ getString a "name" = botName) := by
  intro l
  induction l with
  | nil =>
    intro text
    simp [checkMentionLoop]
  | cons m rest ih =>
    intro text
    rcases m with _ | a
    · simp only [checkMentionLoop]
      rw [ih]
      constructor
      · rintro ⟨m, hm, prf⟩
        exact ⟨m, List.mem_cons_of_mem _ hm, prf⟩
      · rintro ⟨m, hm, a, ha, hname⟩
        rcases List.mem_cons.mp hm with rfl | hm2
        · exact absurd ha (by simp)
        · exact ⟨m, hm2, a, ha, hname⟩
    · simp only [checkMentionLoop]
      by_cases hn : getString a "name" = botName
      · rw [if_pos hn]
        simp only [true_iff]
        exact ⟨some a, List.mem_cons_self _ _, a, rfl, hn⟩
      · rw [if_neg hn]
        rw [ih]
        constructor
        · rintro ⟨m, hm, prf⟩
          exact ⟨m, List.mem_cons_of_mem _ hm, prf⟩
        · rintro ⟨m, hm, a2, ha2, hname⟩
          rcases List.mem_cons.mp hm with rfl | hm2
          · injection ha2 with h
            subst h
            exact absurd hname hn
          · exact ⟨m, hm2, a2, ha2, hname⟩

theorem checkAndStripMention_iff (text : String)
    (mentions : Option (List (Option ArgMap))) (botName : String) :
    ((checkAndStripMention text mentions botName).1 = true ↔
      CurrentMentionsBot mentions botName) := by
  unfold checkAndStripMention CurrentMentionsBot
  rcases mentions with _ | l
  · simp
  · rcases l with _ | ⟨m, rest⟩
    · simp
    · dsimp only
      rw [if_neg (by simp)]
      rw [checkMentionLoop_iff]
      simp

theorem messageMentionsBot_iff (msg : Option LarkMessage) (botName : String) :
    (messageMentionsBot msg botName = true ↔
      ∃ lm, msg = some lm ∧
        ∃ e ∈ lm.mentions, ∃ mm, e = some mm ∧ mm.name = some botName) := by
  rcases msg with _ | lm
  · simp [messageMentionsBot]
  · simp only [messageMentionsBot, List.any_eq_true]
    constructor
    · rintro ⟨e, he, hef⟩
      rcases e with _ | mm
      · simp at hef
      · dsimp only at hef
        rcases hmm : mm.name with _ | n
        · rw [hmm] at hef
          simp at hef
        · rw [hmm] at hef
          simp only [beq_iff_eq] at hef
          exact ⟨lm, rfl, some mm, he, mm, rfl, by rw [hmm, hef]⟩
    · rintro ⟨lm2, hlm, e, he, mm, rfl, hname⟩
      injection hlm with h
      subst h
      exact ⟨some mm, he, by simp [hname]⟩

theorem firstMessageMentionsBot_iff (messages : List (Option LarkMessage))
    (botName : String) :
    (firstMessageMentionsBot messages botName = true ↔
      FirstThreadMsgMentionsBot messages botName) := by
  unfold FirstThreadMsgMentionsBot
  rcases messages with _ | ⟨msg, rest⟩
  · simp [firstMessageMentionsBot]
  · simp only [firstMessageMentionsBot, List.head?_cons, Option.some.injEq]
    rw [messageMentionsBot_iff]

/-- C8 (confirmed): an inbound group-chat message (any of the three group
chat kinds) is processed exactly when the current message mentions the
bot by its configured name or the loaded thread's first message mentions
the bot; a direct p2p chat is processed unconditionally. -/
theorem group_chat_addressing (chatType : String)
    (hct : chatType = "group" ∨ chatType = "pgroup" ∨ chatType = "sgroup")
    (text : String) (mentions : Option (List (Option ArgMap)))
    (botName threadID : String) (msgs : List (Option LarkMessage)) :
    (messageProcessed chatType text mentions botName threadID (.ok msgs) = true ↔
      CurrentMentionsBot mentions botName ∨
        (¬ threadID = "" ∧ FirstThreadMsgMentionsBot msgs botName)) ∧
    (∀ fetch, messageProcessed "p2p" text mentions botName threadID fetch = true) := by
  have hgroup : (decideGroupProcess text mentions botName threadID (.ok msgs) = true ↔
      CurrentMentionsBot mentions botName ∨
        (¬ threadID = "" ∧ FirstThreadMsgMentionsBot msgs botName)) := by
    unfold decideGroupProcess
    rw [Bool.or_eq_true]
    apply or_congr
    · exact checkAndStripMention_iff text mentions botName
    · by_cases ht : threadID = ""
      · simp [ht]
      · rw [if_pos ht]
        dsimp only
        rw [firstMessageMentionsBot_iff]
        exact ⟨fun hf => ⟨ht, hf⟩, fun hp => hp.2⟩
  refine ⟨?_, fun fetch => rfl⟩
  rcases hct with rfl | rfl | rfl <;> exact hgroup

/-- C8 witness: a threaded group message whose first thread message
mentions the bot while the current message does not is still processed. -/
theorem group_chat_addressing_witness :
    messageProcessed "group" "继续记一笔" none "账本机器人" "thread_1"
      (.ok [some ⟨[some ⟨some "账本机器人", some "@_user_1"⟩]⟩]) = true ∧
    messageProcessed "p2p" "记一笔" none "账本机器人" "" (.ok []) = true := by
  have h := (group_chat_addressing "group" (Or.inl rfl) "继续记一笔" none
    "账本机器人" "thread_1"
    [some ⟨[some ⟨some "账本机器人", some "@_user_1"⟩]⟩]).1.mpr
    (Or.inr ⟨by decide, ⟨⟨[some ⟨some "账本机器人", some "@_user_1"⟩]⟩, rfl,
      some ⟨some "账本机器人", some "@_user_1"⟩, List.mem_cons_self _ _,
      ⟨some "账本机器人", some "@_user_1"⟩, rfl, rfl⟩⟩)
  exact ⟨h, (group_chat_addressing "group" (Or.inl rfl) "记一笔" none
    "账本机器人" "" []).2 (.ok [])⟩

theorem lookupKey_mapReplace (k v : String) :
    ∀ l : List (String × String), (lookupKey l k).isSome →
      lookupKey (l.map (fun p => if p.1 = k then (k, v) else p)) k = some v := by
  intro l
  induction l with
  | nil => intro h; simp [lookupKey] at h
  | cons p rest ih =>
    intro h
    by_cases hk : p.1 = k
    · rw [List.map_cons, if_pos hk]
      simp [lookupKey]
    · simp only [List.map_cons, if_neg hk]
      rw [lookupKey, if_neg hk]
      apply ih
      rw [lookupKey, if_neg hk] at h
      exact h

theorem lookupKey_append_last (k v : String) :
    ∀ l : List (String × String), lookupKey l k = none →
      lookupKey (l ++ [(k, v)]) k = some v := by
  intro l
  induction l with
  | nil => intro _; simp [lookupKey]
  | cons p rest ih =>
    intro h
    rw [lookupKey] at h
    by_cases hk : p.1 = k
    · rw [if_pos hk] at h
      exact absurd h (by simp)
    · rw [if_neg hk] at h
      rw [List.cons_append, lookupKey, if_neg hk]
      exact ih h

theorem lookupKey_setKey (l : List (String × String)) (k v : String) :
    lookupKey (setKey l k v) k = some v := by
  unfold setKey
  rcases hl : lookupKey l k with _ | w
  · rw [if_neg (by simp [hl])]
    exact lookupKey_append_last k v l hl
  · rw [if_pos (by simp [hl])]
    exact lookupKey_mapReplace k v l (by simp [hl])

theorem setKey_values (l : List (String × String)) (k v : String)
    (Q : String → Prop) (hl : ∀ p ∈ l, Q p.2) (hv : Q v) :
    ∀ p ∈ setKey l k v, Q p.2 := by
  unfold setKey
  by_cases h : (lookupKey l k).isSome
  · rw [if_pos h]
    intro p hp
    rcases List.mem_map.mp hp with ⟨q, hq, rfl⟩
    by_cases hk : q.1 = k
    · rw [if_pos hk]
      exact hv
    · rw [if_neg hk]
      exact hl q hq
  · rw [if_neg h]
    intro p hp
    rcases List.mem_append.mp hp with hmem | hmem
    · exact hl p hmem
    · rw [List.mem_singleton.mp hmem]
      exact hv

/-- The conclusion of the rename claim: an empty or whitespace-only name
fails and leaves the identity store untouched; a valid name is persisted
under the sender's channel id; and nonempty-after-trimming display names
are preserved as a store invariant. -/
def RenameSpec (args : ArgMap) (openID : String) (st : St) : Prop :=
  (trimSpace (getString args "name") = "" →
    (handleRenameUser args openID st).err.isSome = true ∧
    (handleRenameUser args openID st).st.users = st.users) ∧
  (¬ trimSpace (getString args "name") = "" →
    (handleRenameUser args openID st).err = none ∧
    lookupKey (handleRenameUser args openID st).st.users openID
      = some (getString args "name")) ∧
  ((∀ p ∈ st.users, ¬ trimSpace p.2 = "") →
    ∀ p ∈ (handleRenameUser args openID st).st.users, ¬ trimSpace p.2 = "")

/-- C9 (confirmed): a `rename_user` with an empty or whitespace-only name
fails and leaves the sender's stored mapping unchanged, a valid name is
stored keyed by the sender's channel id, and consequently the identity
store never holds an empty or whitespace-only display name after any
operation. -/
theorem rename_user_never_stores_whitespace (args : ArgMap) (openID : String)
    (st : St) : RenameSpec args openID st := by
  unfold RenameSpec handleRenameUser SetUserName
  by_cases hname : getString args "name" = ""
  · rw [if_pos hname]
    refine ⟨fun _ => ⟨rfl, rfl⟩, fun hnz => ?_, fun hQ => hQ⟩
    rw [hname] at hnz
    exact absurd rfl hnz
  · rw [if_neg hname]
    by_cases htr : trimSpace (getString args "name") = ""
    · rw [if_pos (Or.inr htr)]
      exact ⟨fun _ => ⟨rfl, rfl⟩, fun hnz => absurd htr hnz, fun hQ => hQ⟩
    · rw [if_neg (by rw [not_or]; exact ⟨hname, htr⟩)]
      refine ⟨fun he => absurd he htr, fun _ => ⟨rfl, ?_⟩, fun hQ => ?_⟩
      · exact lookupKey_setKey st.users openID (getString args "name")
      · exact setKey_values st.users openID (getString args "name")
          (fun s => ¬ trimSpace s = "") hQ htr

/-- C9 witness: the theorem applied to a whitespace-only rename (which
fails and changes nothing) and to a valid rename (which is stored under
the sender's id). -/
theorem rename_user_never_stores_whitespace_witness :
    ((handleRenameUser [("name", .str "  ")] "ou_1" ⟨[], []⟩).err.isSome = true ∧
      (handleRenameUser [("name", .str "  ")] "ou_1" ⟨[], []⟩).st.users = []) ∧
    ((handleRenameUser [("name", .str "李四")] "ou_1" ⟨[], []⟩).err = none ∧
      lookupKey (handleRenameUser [("name", .str "李四")] "ou_1"
        ⟨[], []⟩).st.users "ou_1" = some "李四") :=
  ⟨(rename_user_never_stores_whitespace [("name", .str "  ")] "ou_1" ⟨[], []⟩).1
      (by decide),
    (rename_user_never_stores_whitespace [("name", .str "李四")] "ou_1" ⟨[], []⟩).2.1
      (by decide)⟩

/-- C10 (confirmed): argument decoding is total — when the `amount`
argument is absent or not a JSON number, `getFloat64` yields `0`, so the
`record_transaction` invocation is rejected by the positivity check as an
argument error: no bill is created and the ledger is untouched. -/
theorem non_numeric_amount_rejected (args : ArgMap) (svc : BillServiceData)
    (nowT : GoTime) (nowUnix rnd : Int) (st : St)
    (h : ∀ v, lookupKey args "amount" = some v → ¬ ∃ x, v = JsonVal.num x) :
    getFloat64 args "amount" = 0 ∧
    (handleRecordTransaction args svc nowT nowUnix rnd st).err = some "invalid args" ∧
    (handleRecordTransaction args svc nowT nowUnix rnd st).st = st ∧
    (handleRecordTransaction args svc nowT nowUnix rnd st).ops = [] := by
  have hz : getFloat64 args "amount" = 0 := by
    rcases hv : lookupKey args "amount" with _ | v
    · simp only [getFloat64, hv]
    · rcases v with s | x | b | _ | _
      · simp only [getFloat64, hv]
      · exact absurd ⟨x, rfl⟩ (h _ hv)
      · simp only [getFloat64, hv]
      · simp only [getFloat64, hv]
      · simp only [getFloat64, hv]
  refine ⟨hz, ?_, ?_, ?_⟩ <;>
    · unfold handleRecordTransaction
      rw [if_pos (Or.inr (le_of_eq hz))]

/-- C10 witness: the theorem applied to an invocation whose amount is the
JSON string `"ten"`. -/
theorem non_numeric_amount_rejected_witness :
    getFloat64 [("description", .str "午饭"), ("amount", .str "ten")] "amount" = 0 ∧
    (handleRecordTransaction [("description", .str "午饭"), ("amount", .str "ten")]
      ⟨"ou_1", "张三", ""⟩ exampleNow 1760184000 42 ⟨[], []⟩).err = some "invalid args" ∧
    (handleRecordTransaction [("description", .str "午饭"), ("amount", .str "ten")]
      ⟨"ou_1", "张三", ""⟩ exampleNow 1760184000 42 ⟨[], []⟩).st = ⟨[], []⟩ ∧
    (handleRecordTransaction [("description", .str "午饭"), ("amount", .str "ten")]
      ⟨"ou_1", "张三", ""⟩ exampleNow 1760184000 42 ⟨[], []⟩).ops = [] :=
  non_numeric_amount_rejected _ _ _ _ _ _
    (fun v hv => by
      rw [show lookupKey [("description", JsonVal.str "午饭"),
        ("amount", JsonVal.str "ten")] "amount" = some (JsonVal.str "ten")
        from rfl] at hv
      injection hv with hveq
      rw [← hveq]
      rintro ⟨x, hx⟩
      cases hx)

end LedgerBot
